import Mathlib

/-!
Verification of the codenexus-mcp knowledge-graph server core
(`src/graphologyManager.ts`, `src/GraphHandler.ts`, `src/server.ts`).

The graphology `MultiGraph` instance used by the server (`multi: true`,
`allowSelfLoops: true`, `type: 'mixed'`) is embedded shallowly: a graph is a
list of nodes (key plus attribute map, in insertion order) and a list of edge
records (key, endpoints, attribute map, directedness flag, in insertion
order).  Attribute maps are JSON-object-like association lists; attribute
values are modelled as JSON values (string, number, boolean, null, array).
Numbers are modelled as integers: every weight and line number appearing in
the verified claims is integral.
-/

/-- A JSON-like attribute value, as stored in node and edge attribute maps.
Arrays are modelled as arrays of strings (the only array-valued attributes
the verified claims touch are tag lists). -/
inductive Value where
  | str : String → Value
  | num : Int → Value
  | bool : Bool → Value
  | null : Value
  | arr : List String → Value
deriving Repr, DecidableEq, Inhabited

/-- JavaScript truthiness of an attribute value (`""`, `0`, `false`, `null`
are falsy; arrays are truthy). -/
def Value.truthy : Value → Bool
  | .str s => s ≠ ""
  | .num n => n ≠ 0
  | .bool b => b
  | .null => false
  | .arr _ => true

/-- An attribute map: a JavaScript object with attribute keys in insertion
order.  Keys are unique in every map produced by the code (JSON objects and
object literals), which the theorems assume where it matters. -/
abbrev AttrMap := List (String × Value)

/-- Looks an attribute up by key (`obj[key]`); `none` models `undefined`. -/
def getAttr (m : AttrMap) (k : String) : Option Value :=
  (m.find? (fun kv => kv.1 = k)).map (·.2)

/-- Sets one attribute the way JavaScript object assignment does: an existing
key is overwritten in place, a new key is appended. -/
def setAttr : AttrMap → String → Value → AttrMap
  | [], k, v => [(k, v)]
  | (k', v') :: rest, k, v =>
    if k' = k then (k, v) :: rest else (k', v') :: setAttr rest k v

/-- Shallow merge (`Object.assign(old, new)` / `{...old, ...new}`): every
binding of `new` is written into `old` in order. -/
def mergeAttrs (old new : AttrMap) : AttrMap :=
  new.foldl (fun m kv => setAttr m kv.1 kv.2) old

/-- One edge of the multigraph: its key, endpoints, attribute map and
directedness flag (graphology stores undirected edges with an ordered
source/target pair plus this flag). -/
structure Edge where
  key : String
  source : String
  target : String
  attrs : AttrMap
  undirected : Bool
deriving Repr, DecidableEq, Inhabited

/-- The in-memory graphology `MultiGraph` state: nodes and edges in insertion
order.  Self-loops and parallel edges are permitted. -/
structure Graph where
  nodes : List (String × AttrMap)
  edges : List Edge
deriving Repr, DecidableEq, Inhabited

/-- The fresh graph built by the `GraphologyManager` constructor. -/
def newGraph : Graph := ⟨[], []⟩

/-- Models `graph.hasNode(id)`. -/
def hasNode (g : Graph) (id : String) : Bool :=
  g.nodes.any (fun n => n.1 = id)

/-- Models `graph.getNodeAttributes(id)` (`none` when the node is absent;
graphology would throw in that case, and every call site checks first). -/
def getNodeAttrs (g : Graph) (id : String) : Option AttrMap :=
  (g.nodes.find? (fun n => n.1 = id)).map (·.2)

/-- Attribute map of a node, defaulting to the empty map for an absent node. -/
def nodeAttrsD (g : Graph) (id : String) : AttrMap :=
  (getNodeAttrs g id).getD []

/-- Models `graph.getNodeAttribute(id, key)`. -/
def getNodeAttr (g : Graph) (id : String) (k : String) : Option Value :=
  (getNodeAttrs g id).bind (fun m => getAttr m k)

/-- Models `graph.addNode(id, attrs)`; call sites guard with `hasNode` so the
duplicate-node exception path never runs. -/
def addNode (g : Graph) (id : String) (attrs : AttrMap) : Graph :=
  { g with nodes := g.nodes ++ [(id, attrs)] }

/-- Models `graph.mergeNodeAttributes(id, attrs)` (shallow `Object.assign`
into the node's attribute map). -/
def mergeNodeAttributes (g : Graph) (id : String) (attrs : AttrMap) : Graph :=
  { g with nodes := g.nodes.map (fun n => if n.1 = id then (n.1, mergeAttrs n.2 attrs) else n) }

/-- Models `graph.hasEdge(key)`. -/
def hasEdge (g : Graph) (k : String) : Bool :=
  g.edges.any (fun e => e.key = k)

/-- Models `graph.getEdgeAttributes(key)`. -/
def getEdgeAttrs (g : Graph) (k : String) : Option AttrMap :=
  (g.edges.find? (fun e => e.key = k)).map (·.attrs)

/-- Models `graph.addEdgeWithKey(key, source, target, attrs)` (directed); call
sites guard against a duplicate key and missing endpoints, the exception
paths graphology has for those cases. -/
def addEdgeWithKey (g : Graph) (k source target : String) (attrs : AttrMap) : Graph :=
  { g with edges := g.edges ++ [⟨k, source, target, attrs, false⟩] }

/-- Models `graph.addUndirectedEdgeWithKey(key, source, target, attrs)`. -/
def addUndirectedEdgeWithKey (g : Graph) (k source target : String) (attrs : AttrMap) : Graph :=
  { g with edges := g.edges ++ [⟨k, source, target, attrs, true⟩] }

/-- Models `graph.dropNode(id)`: removes the node and every incident edge
(outgoing, incoming and self-loops). -/
def dropNode (g : Graph) (id : String) : Graph :=
  ⟨g.nodes.filter (fun n => n.1 ≠ id),
   g.edges.filter (fun e => e.source ≠ id ∧ e.target ≠ id)⟩

/-- Models `graph.dropEdge(key)`. -/
def dropEdge (g : Graph) (k : String) : Graph :=
  { g with edges := g.edges.filter (fun e => e.key ≠ k) }

/-- Node keys are pairwise distinct — an invariant of every reachable graph
(graphology rejects duplicate node keys). -/
def NodeKeysDistinct (g : Graph) : Prop :=
  (g.nodes.map Prod.fst).Nodup

/-- Edge keys are pairwise distinct — an invariant of every reachable graph
(graphology rejects duplicate edge keys). -/
def EdgeKeysDistinct (g : Graph) : Prop :=
  (g.edges.map Edge.key).Nodup

/-- Referential integrity: every edge's endpoints name existing nodes. -/
def WellFormed (g : Graph) : Prop :=
  ∀ e ∈ g.edges, hasNode g e.source = true ∧ hasNode g e.target = true

instance (g : Graph) : Decidable (WellFormed g) := by
  unfold WellFormed; infer_instance

instance (g : Graph) : Decidable (NodeKeysDistinct g) := by
  unfold NodeKeysDistinct; infer_instance

instance (g : Graph) : Decidable (EdgeKeysDistinct g) := by
  unfold EdgeKeysDistinct; infer_instance

/-!
Persistence (`saveGraph` / `loadGraph`, src/graphologyManager.ts lines 46-75).

`saveGraph` writes `JSON.stringify(graph.export())`; `loadGraph` parses the
file and feeds it to `graph.import` on the freshly constructed (empty) graph.
The JSON layer is faithful on the modelled attribute values (they are exactly
JSON values), so the on-disk snapshot is modelled as the exported document
itself: a list of node records followed by a list of edge records, the
structure graphology's `export` produces.
-/

/-- One node record of the exported snapshot (`{key, attributes}`). -/
structure NodeRec where
  key : String
  attributes : AttrMap
deriving Repr, DecidableEq

/-- One edge record of the exported snapshot
(`{key, source, target, attributes, undirected}`). -/
structure EdgeRec where
  key : String
  source : String
  target : String
  attributes : AttrMap
  undirected : Bool
deriving Repr, DecidableEq

/-- The exported snapshot document (graph options are the fixed constructor
options and carry no per-graph information). -/
structure GraphData where
  nodes : List NodeRec
  edges : List EdgeRec
deriving Repr, DecidableEq

/-- The node-list entry a node record denotes. -/
def NodeRec.toNode (r : NodeRec) : String × AttrMap := (r.key, r.attributes)

/-- The edge a snapshot edge record denotes. -/
def EdgeRec.toEdge (r : EdgeRec) : Edge :=
  ⟨r.key, r.source, r.target, r.attributes, r.undirected⟩

/-- Models `graph.export()`. -/
def exportGraph (g : Graph) : GraphData :=
  ⟨g.nodes.map (fun n => ⟨n.1, n.2⟩),
   g.edges.map (fun e => ⟨e.key, e.source, e.target, e.attrs, e.undirected⟩)⟩

/-- Node-import pass of `graph.import`: each record is added with `addNode`;
a duplicate key makes graphology throw, modelled as `none`. -/
def importNodes : Graph → List NodeRec → Option Graph
  | g, [] => some g
  | g, r :: rest =>
    if hasNode g r.key then none
    else importNodes (addNode g r.key r.attributes) rest

/-- Edge-import pass of `graph.import`: each record is added with its key,
endpoints and directedness; a duplicate key or a missing endpoint makes
graphology throw, modelled as `none`. -/
def importEdges : Graph → List EdgeRec → Option Graph
  | g, [] => some g
  | g, r :: rest =>
    if hasEdge g r.key || !hasNode g r.source || !hasNode g r.target then none
    else importEdges
      (if r.undirected then addUndirectedEdgeWithKey g r.key r.source r.target r.attributes
       else addEdgeWithKey g r.key r.source r.target r.attributes) rest

/-- Models `graph.import(data)`: nodes first, then edges. -/
def importGraph (g : Graph) (d : GraphData) : Option Graph :=
  (importNodes g d.nodes).bind (fun g1 => importEdges g1 d.edges)

/-- Models `saveGraph`: the persisted snapshot of the graph. -/
def saveGraph (g : Graph) : GraphData := exportGraph g

/-- Models `loadGraph` on a present, parseable snapshot: the snapshot is
imported into the freshly constructed empty graph. -/
def loadGraph (d : GraphData) : Option Graph := importGraph newGraph d

theorem hasNode_addNode (g : Graph) (id k : String) (attrs : AttrMap) :
    hasNode (addNode g id attrs) k = (hasNode g k || id = k) := by
  simp [hasNode, addNode, List.any_append, decide_eq_true_eq]

theorem importNodes_eq (acc : Graph) (recs : List NodeRec)
    (h1 : ∀ r ∈ recs, hasNode acc r.key = false)
    (h2 : (recs.map NodeRec.key).Nodup) :
    importNodes acc recs = some ⟨acc.nodes ++ recs.map NodeRec.toNode, acc.edges⟩ := by
  induction recs generalizing acc with
  | nil => simp [importNodes]
  | cons r rest ih =>
    simp only [List.map_cons, List.nodup_cons, List.mem_map] at h2
    have hr : hasNode acc r.key = false := h1 r (List.mem_cons_self r rest)
    rw [importNodes, hr]
    simp only [Bool.false_eq_true, if_false]
    rw [ih]
    · simp [addNode, NodeRec.toNode]
    · intro r' hr'
      rw [hasNode_addNode]
      have : hasNode acc r'.key = false := h1 r' (List.mem_cons_of_mem r hr')
      rw [this]
      simp only [Bool.false_or, decide_eq_false_iff_not]
      intro hkey
      exact h2.1 ⟨r', hr', hkey.symm⟩
    · exact h2.2

theorem nodes_addEdge (g : Graph) (k s t : String) (attrs : AttrMap) (und : Bool) :
    ((if und then addUndirectedEdgeWithKey g k s t attrs
      else addEdgeWithKey g k s t attrs)).nodes = g.nodes := by
  cases und <;> simp [addEdgeWithKey, addUndirectedEdgeWithKey]

theorem hasNode_addEdge (g : Graph) (k s t x : String) (attrs : AttrMap) (und : Bool) :
    hasNode (if und then addUndirectedEdgeWithKey g k s t attrs
             else addEdgeWithKey g k s t attrs) x = hasNode g x := by
  cases und <;> simp [hasNode, addEdgeWithKey, addUndirectedEdgeWithKey]

theorem hasEdge_addEdge (g : Graph) (k s t k' : String) (attrs : AttrMap) (und : Bool) :
    hasEdge (if und then addUndirectedEdgeWithKey g k s t attrs
             else addEdgeWithKey g k s t attrs) k' = (hasEdge g k' || k = k') := by
  cases und <;> simp [hasEdge, addEdgeWithKey, addUndirectedEdgeWithKey, List.any_append,
    decide_eq_true_eq]

theorem importEdges_eq (acc : Graph) (recs : List EdgeRec)
    (h1 : ∀ r ∈ recs, hasEdge acc r.key = false)
    (h2 : (recs.map EdgeRec.key).Nodup)
    (h3 : ∀ r ∈ recs, hasNode acc r.source = true ∧ hasNode acc r.target = true) :
    importEdges acc recs = some ⟨acc.nodes, acc.edges ++ recs.map EdgeRec.toEdge⟩ := by
  induction recs generalizing acc with
  | nil => simp [importEdges]
  | cons r rest ih =>
    simp only [List.map_cons, List.nodup_cons, List.mem_map] at h2
    have hr : hasEdge acc r.key = false := h1 r (List.mem_cons_self r rest)
    have hs := h3 r (List.mem_cons_self r rest)
    rw [importEdges, hr, hs.1, hs.2]
    simp only [Bool.not_true, Bool.or_false, Bool.false_or, Bool.false_eq_true, if_false]
    rw [ih]
    · cases hu : r.undirected <;>
        simp [addEdgeWithKey, addUndirectedEdgeWithKey, hu, EdgeRec.toEdge]
    · intro r' hr'
      rw [hasEdge_addEdge]
      have : hasEdge acc r'.key = false := h1 r' (List.mem_cons_of_mem r hr')
      rw [this]
      simp only [Bool.false_or, decide_eq_false_iff_not]
      intro hkey
      exact h2.1 ⟨r', hr', hkey.symm⟩
    · exact h2.2
    · intro r' hr'
      have := h3 r' (List.mem_cons_of_mem r hr')
      rw [hasNode_addEdge, hasNode_addEdge]
      exact this

/-- C1: for every graph (self-loops and parallel edges included), importing
the persisted snapshot written by `saveGraph` into the fresh graph that
`loadGraph` starts from reconstructs exactly the same graph state: the same
node keys with the same attribute maps, and the same edge keys with the same
endpoints, attribute maps (type included) and directedness flags.  The
hypotheses are the key-uniqueness and referential-integrity invariants every
reachable graph satisfies. -/
theorem loadGraph_saveGraph_roundtrip (g : Graph)
    (hn : NodeKeysDistinct g) (he : EdgeKeysDistinct g) (hw : WellFormed g) :
    loadGraph (saveGraph g) = some g := by
  unfold loadGraph saveGraph importGraph exportGraph
  rw [importNodes_eq]
  · simp only [Option.bind_some, Option.some_bind]
    rw [importEdges_eq]
    · simp only [newGraph, List.nil_append, List.map_map]
      have h1 : (NodeRec.toNode ∘ fun n : String × AttrMap => NodeRec.mk n.1 n.2) = id :=
        funext fun n => rfl
      have h2 : (EdgeRec.toEdge ∘ fun e : Edge =>
          EdgeRec.mk e.key e.source e.target e.attrs e.undirected) = id :=
        funext fun e => rfl
      rw [h1, h2, List.map_id, List.map_id]
    · intro r _
      simp [hasEdge, newGraph]
    · simpa [Function.comp] using he
    · intro r hr
      simp only [List.mem_map] at hr
      obtain ⟨e, he', rfl⟩ := hr
      have := hw e he'
      simpa [hasNode, newGraph, NodeRec.toNode] using this
  · intro r _
    simp [hasNode, newGraph]
  · simpa [Function.comp] using hn

/-- A concrete graph with a self-loop (`loop`), parallel edges (`e1`, `e2`)
and an undirected edge (`u1`), used to witness the round-trip law. -/
def roundTripDemo : Graph :=
  ⟨[("A", [("type", Value.str "file"), ("name", Value.str "A")]),
    ("B", [("type", Value.str "class"), ("tags", Value.arr ["x", "y"])])],
   [⟨"e1", "A", "B", [("type", Value.str "calls"), ("weight", Value.num 2)], false⟩,
    ⟨"e2", "A", "B", [("type", Value.str "calls")], false⟩,
    ⟨"loop", "A", "A", [("type", Value.str "self")], false⟩,
    ⟨"u1", "A", "B", [("type", Value.str "links")], true⟩]⟩

/-- Witness for C1: the round-trip law evaluated on `roundTripDemo`. -/
theorem loadGraph_saveGraph_roundtrip_witness :
    NodeKeysDistinct roundTripDemo ∧ EdgeKeysDistinct roundTripDemo ∧
      WellFormed roundTripDemo ∧ loadGraph (saveGraph roundTripDemo) = some roundTripDemo :=
  ⟨by decide, by decide, by decide,
   loadGraph_saveGraph_roundtrip roundTripDemo (by decide) (by decide) (by decide)⟩

/-!
Attribute-map lemmas used throughout: `getAttr` over `setAttr`/`mergeAttrs`.
-/

theorem getAttr_nil (k : String) : getAttr [] k = none := rfl

theorem getAttr_cons (kv : String × Value) (m : AttrMap) (k : String) :
    getAttr (kv :: m) k = if kv.1 = k then some kv.2 else getAttr m k := by
  simp only [getAttr, List.find?]
  by_cases h : kv.1 = k <;> simp [h]

theorem getAttr_eq_none_of_not_mem (m : AttrMap) (k : String)
    (h : k ∉ m.map Prod.fst) : getAttr m k = none := by
  induction m with
  | nil => rfl
  | cons kv rest ih =>
    simp only [List.map_cons, List.mem_cons, not_or] at h
    rw [show (kv : String × Value) = (kv.1, kv.2) from rfl, getAttr_cons]
    rw [if_neg (fun hk => h.1 hk.symm)]
    exact ih h.2

theorem getAttr_setAttr (m : AttrMap) (k : String) (v : Value) (k' : String) :
    getAttr (setAttr m k v) k' = if k = k' then some v else getAttr m k' := by
  induction m with
  | nil => rw [setAttr, getAttr_cons, getAttr_nil]
  | cons kv rest ih =>
    rw [show (kv : String × Value) = (kv.1, kv.2) from rfl, setAttr]
    by_cases h1 : kv.1 = k
    · by_cases h2 : k = k' <;> simp [h1, h2, getAttr_cons]
    · by_cases h2 : k = k'
      · subst h2
        simp [h1, getAttr_cons, ih]
      · simp [h1, h2, getAttr_cons, ih]

theorem keys_setAttr_subset (m : AttrMap) (k : String) (v : Value) :
    ((setAttr m k v).map Prod.fst) ⊆ k :: m.map Prod.fst := by
  induction m with
  | nil => intro x hx; simpa [setAttr] using hx
  | cons kv rest ih =>
    rw [show (kv : String × Value) = (kv.1, kv.2) from rfl, setAttr]
    by_cases h1 : kv.1 = k
    · rw [if_pos h1]
      subst h1
      intro x hx
      simp only [List.map_cons, List.mem_cons] at hx ⊢
      tauto
    · rw [if_neg h1]
      intro x hx
      simp only [List.map_cons, List.mem_cons] at hx ⊢
      rcases hx with hx | hx
      · tauto
      · have := ih hx
        simp only [List.mem_cons] at this
        tauto

theorem keys_setAttr_nodup (m : AttrMap) (k : String) (v : Value)
    (h : (m.map Prod.fst).Nodup) : ((setAttr m k v).map Prod.fst).Nodup := by
  induction m with
  | nil => simp [setAttr]
  | cons kv rest ih =>
    rw [show (kv : String × Value) = (kv.1, kv.2) from rfl, setAttr]
    simp only [List.map_cons, List.nodup_cons] at h
    by_cases h1 : kv.1 = k
    · rw [if_pos h1]
      subst h1
      simp only [List.map_cons, List.nodup_cons]
      exact ⟨h.1, h.2⟩
    · rw [if_neg h1]
      simp only [List.map_cons, List.nodup_cons]
      refine ⟨fun hmem => ?_, ih h.2⟩
      have hin := keys_setAttr_subset rest k v hmem
      simp only [List.mem_cons] at hin
      rcases hin with hh | hh
      · exact h1 hh
      · exact h.1 hh

theorem getAttr_mergeAttrs (old new : AttrMap) (k : String)
    (h : (new.map Prod.fst).Nodup) :
    getAttr (mergeAttrs old new) k = (getAttr new k).or (getAttr old k) := by
  induction new generalizing old with
  | nil => simp [mergeAttrs, getAttr_nil]
  | cons kv rest ih =>
    simp only [List.map_cons, List.nodup_cons] at h
    have hstep : mergeAttrs old ((kv.1, kv.2) :: rest) = mergeAttrs (setAttr old kv.1 kv.2) rest := rfl
    rw [show (kv : String × Value) = (kv.1, kv.2) from rfl, hstep, ih _ h.2, getAttr_cons,
      getAttr_setAttr]
    by_cases hk : kv.1 = k
    · rw [if_pos hk, if_pos hk]
      have : getAttr rest k = none := by
        apply getAttr_eq_none_of_not_mem
        intro hmem
        exact h.1 (hk ▸ hmem)
      rw [this]
      rfl
    · rw [if_neg hk, if_neg hk]

theorem keys_mergeAttrs_nodup (old new : AttrMap)
    (h : (old.map Prod.fst).Nodup) : ((mergeAttrs old new).map Prod.fst).Nodup := by
  induction new generalizing old with
  | nil => exact h
  | cons kv rest ih =>
    exact ih (setAttr old kv.1 kv.2) (keys_setAttr_nodup old kv.1 kv.2 h)

/-!
Node-level lemmas: how `getNodeAttrs`/`hasNode` interact with the graph
primitives.
-/

theorem find?_fst_map (f : String × AttrMap → String × AttrMap)
    (hf : ∀ n, (f n).1 = n.1) (l : List (String × AttrMap)) (id : String) :
    (l.map f).find? (fun n => n.1 = id) = (l.find? (fun n => n.1 = id)).map f := by
  induction l with
  | nil => rfl
  | cons n rest ih =>
    by_cases h : n.1 = id
    · rw [List.map_cons, List.find?_cons_of_pos _ (by simpa [hf n] using h),
        List.find?_cons_of_pos _ (by simpa using h)]
      rfl
    · rw [List.map_cons, List.find?_cons_of_neg _ (by simpa [hf n] using h),
        List.find?_cons_of_neg _ (by simpa using h), ih]

theorem getNodeAttrs_isSome (g : Graph) (id : String) :
    (getNodeAttrs g id).isSome = hasNode g id := by
  unfold getNodeAttrs hasNode
  rw [Option.isSome_map']
  cases hf : List.find? (fun n => decide (n.1 = id)) g.nodes with
  | none =>
    simp only [Option.isSome_none]
    symm
    rw [List.any_eq_false]
    intro x hx
    have := List.find?_eq_none.mp hf x hx
    simpa using this
  | some a =>
    simp only [Option.isSome_some]
    symm
    rw [List.any_eq_true]
    have hp := List.find?_some hf
    exact ⟨a, List.mem_of_find?_eq_some hf, hp⟩

theorem getNodeAttrs_mergeNodeAttributes_self (g : Graph) (id : String) (attrs : AttrMap) :
    getNodeAttrs (mergeNodeAttributes g id attrs) id =
      (getNodeAttrs g id).map (fun m => mergeAttrs m attrs) := by
  unfold getNodeAttrs mergeNodeAttributes
  rw [show (fun n : String × AttrMap => if n.1 = id then (n.1, mergeAttrs n.2 attrs) else n) =
      (fun n : String × AttrMap => if n.1 = id then (n.1, mergeAttrs n.2 attrs) else n) from rfl]
  rw [find?_fst_map _ (fun n => by by_cases h : n.1 = id <;> simp [h]) g.nodes id]
  cases hfind : List.find? (fun n => decide (n.1 = id)) g.nodes with
  | none => rfl
  | some a =>
    have hp := List.find?_some hfind
    have ha : a.1 = id := by simpa using hp
    simp [ha]

theorem getNodeAttrs_mergeNodeAttributes_other (g : Graph) (id x : String) (attrs : AttrMap)
    (hx : x ≠ id) :
    getNodeAttrs (mergeNodeAttributes g id attrs) x = getNodeAttrs g x := by
  unfold getNodeAttrs mergeNodeAttributes
  rw [find?_fst_map _ (fun n => by by_cases h : n.1 = id <;> simp [h]) g.nodes x]
  cases hfind : List.find? (fun n => decide (n.1 = x)) g.nodes with
  | none => rfl
  | some a =>
    have hp := List.find?_some hfind
    have ha : a.1 = x := by simpa using hp
    have : ¬a.1 = id := fun hc => hx (ha ▸ hc)
    simp [this]

theorem hasNode_mergeNodeAttributes (g : Graph) (id x : String) (attrs : AttrMap) :
    hasNode (mergeNodeAttributes g id attrs) x = hasNode g x := by
  unfold hasNode mergeNodeAttributes
  rw [List.any_map]
  congr 1
  funext n
  by_cases h : n.1 = id <;> simp [Function.comp, h]

theorem getNodeAttrs_addNode_self (g : Graph) (id : String) (attrs : AttrMap)
    (h : hasNode g id = false) :
    getNodeAttrs (addNode g id attrs) id = some attrs := by
  unfold getNodeAttrs addNode hasNode at *
  rw [List.find?_append]
  have hnone : List.find? (fun n => decide (n.1 = id)) g.nodes = none := by
    rw [List.find?_eq_none]
    intro x hx
    have := List.any_eq_false.mp h x hx
    simpa using this
  rw [hnone]
  simp [List.find?_cons]

theorem getNodeAttrs_addNode_other (g : Graph) (id x : String) (attrs : AttrMap)
    (hx : x ≠ id) :
    getNodeAttrs (addNode g id attrs) x = getNodeAttrs g x := by
  unfold getNodeAttrs addNode
  rw [List.find?_append]
  have hone : List.find? (fun n => decide (n.1 = x)) [(id, attrs)] = none := by
    have hne : ¬id = x := fun hc => hx hc.symm
    simp [List.find?_cons, hne]
  rw [hone, Option.or_none]

theorem hasNode_addNode' (g : Graph) (id x : String) (attrs : AttrMap) :
    hasNode (addNode g id attrs) x = (hasNode g x || id = x) := by
  simp [hasNode, addNode, List.any_append, decide_eq_true_eq]

/-!
`createEntities` (src/graphologyManager.ts lines 79-104).
-/

/-- Input record for `createEntities` (`EntityInput` in src/types.ts). -/
structure EntityInput where
  id : String
  type : String
  attributes : AttrMap
deriving Repr, DecidableEq

/-- The `name` attribute the code computes:
`entity.attributes?.name || nodeId` (JavaScript `||`: a falsy provided name
also falls back to the node id). -/
def entityName (e : EntityInput) : Value :=
  match getAttr e.attributes "name" with
  | some v => if v.truthy then v else Value.str e.id
  | none => Value.str e.id

/-- The composed attribute object
`{ ...entity.attributes, type: entity.type, name: entity.attributes?.name || nodeId }`. -/
def entityNodeAttrs (e : EntityInput) : AttrMap :=
  mergeAttrs e.attributes [("type", Value.str e.type), ("name", entityName e)]

/-- Result of `createEntities`: the updated graph plus the two id lists the
method returns. -/
structure CreateEntitiesResult where
  graph : Graph
  createdIds : List String
  existingIds : List String
deriving Repr, DecidableEq

/-- Models `createEntities`: for each input in order, an existing id gets a
shallow attribute merge (`mergeNodeAttributes`) and is reported in
`existingIds`; a new id gets a node with the composed attributes and is
reported in `createdIds`. -/
def createEntities (g : Graph) : List EntityInput → CreateEntitiesResult
  | [] => ⟨g, [], []⟩
  | e :: rest =>
    if hasNode g e.id then
      let r := createEntities (mergeNodeAttributes g e.id (entityNodeAttrs e)) rest
      ⟨r.graph, r.createdIds, e.id :: r.existingIds⟩
    else
      let r := createEntities (addNode g e.id (entityNodeAttrs e)) rest
      ⟨r.graph, e.id :: r.createdIds, r.existingIds⟩

/-- The graph holding one node `n` whose `name` attribute is `"Nice"`. -/
def mergeDemoGraph : Graph :=
  (createEntities newGraph
    [⟨"n", "widget", [("name", Value.str "Nice"), ("color", Value.str "red")]⟩]).graph

/-- C3 counterexample: re-creating node `n` with an input that provides no
attributes does NOT preserve the existing `name` attribute, although `name`
is an existing key not present in the input: the code always writes
`name := attributes?.name || id`, so the stored `"Nice"` is overwritten with
the node id `"n"`.  (Keys like `color` that the composed object does not
mention are preserved.) -/
theorem createEntities_merge_counterexample :
    getNodeAttr mergeDemoGraph "n" "name" = some (Value.str "Nice") ∧
    getNodeAttr (createEntities mergeDemoGraph [⟨"n", "widget", []⟩]).graph "n" "name" =
      some (Value.str "n") ∧
    ¬getNodeAttr (createEntities mergeDemoGraph [⟨"n", "widget", []⟩]).graph "n" "name" =
      some (Value.str "Nice") ∧
    getNodeAttr (createEntities mergeDemoGraph [⟨"n", "widget", []⟩]).graph "n" "color" =
      some (Value.str "red") := by
  refine ⟨?_, ?_, ?_, ?_⟩ <;> decide

/-- C3 (amended): for each input, `createEntities` shallow-merges the composed
attribute object `entityNodeAttrs` (the provided attributes plus a forced
`type` and a forced `name`, the latter defaulting to the id when the input
gives no truthy name) into an existing node — keys of the composed object
overwrite, every other existing key is preserved — and reports the id as
existing, never as an error; a new id creates a node carrying exactly the
composed attributes.  Because `name` is always part of the composed object,
an existing `name` is overwritten (with the input's name, or with the id when
none is given); keys of the input other than `type`/`name` are taken verbatim
from the input. -/
theorem createEntities_spec (g : Graph) (e : EntityInput)
    (hkeys : (e.attributes.map Prod.fst).Nodup) :
    (hasNode g e.id = true →
      (createEntities g [e]).existingIds = [e.id] ∧
      (createEntities g [e]).createdIds = [] ∧
      ∀ k, getNodeAttr (createEntities g [e]).graph e.id k =
        ((getAttr (entityNodeAttrs e) k).or (getNodeAttr g e.id k))) ∧
    (hasNode g e.id = false →
      (createEntities g [e]).createdIds = [e.id] ∧
      (createEntities g [e]).existingIds = [] ∧
      getNodeAttrs (createEntities g [e]).graph e.id = some (entityNodeAttrs e)) ∧
    getAttr (entityNodeAttrs e) "type" = some (Value.str e.type) ∧
    (getAttr e.attributes "name" = none →
      getAttr (entityNodeAttrs e) "name" = some (Value.str e.id)) ∧
    (∀ k v, getAttr e.attributes k = some v → k ≠ "type" → k ≠ "name" →
      getAttr (entityNodeAttrs e) k = some v) := by
  have hpairNodup : ((([("type", Value.str e.type), ("name", entityName e)] : AttrMap)).map
      Prod.fst).Nodup := by
    rw [show (([("type", Value.str e.type), ("name", entityName e)] : AttrMap)).map Prod.fst =
      ["type", "name"] from rfl]
    decide
  have hcomposed : ∀ k, getAttr (entityNodeAttrs e) k =
      (getAttr [("type", Value.str e.type), ("name", entityName e)] k).or
        (getAttr e.attributes k) := fun k =>
    getAttr_mergeAttrs e.attributes _ k hpairNodup
  have hnodupComposed : ((entityNodeAttrs e).map Prod.fst).Nodup :=
    keys_mergeAttrs_nodup e.attributes _ hkeys
  refine ⟨fun hmem => ?_, fun hnew => ?_, ?_, fun hname => ?_, fun k v hv hk1 hk2 => ?_⟩
  · have hr : createEntities g [e] =
        ⟨mergeNodeAttributes g e.id (entityNodeAttrs e), [], [e.id]⟩ := by
      simp [createEntities, hmem]
    rw [hr]
    refine ⟨rfl, rfl, fun k => ?_⟩
    unfold getNodeAttr
    rw [getNodeAttrs_mergeNodeAttributes_self]
    cases hg : getNodeAttrs g e.id with
    | none =>
      have := getNodeAttrs_isSome g e.id
      rw [hg, hmem] at this
      simp at this
    | some m =>
      simp only [Option.map_some', Option.some_bind]
      exact getAttr_mergeAttrs m (entityNodeAttrs e) k hnodupComposed
  · have hr : createEntities g [e] =
        ⟨addNode g e.id (entityNodeAttrs e), [e.id], []⟩ := by
      simp [createEntities, hnew]
    rw [hr]
    exact ⟨rfl, rfl, getNodeAttrs_addNode_self g e.id (entityNodeAttrs e) hnew⟩
  · rw [hcomposed, getAttr_cons]
    rfl
  · have hn : entityName e = Value.str e.id := by unfold entityName; rw [hname]
    rw [hcomposed, hname, getAttr_cons, if_neg (show ¬("type" = "name") from by decide),
      getAttr_cons, if_pos rfl, hn]
    rfl
  · rw [hcomposed, getAttr_cons, getAttr_cons]
    rw [if_neg (fun hc => hk1 hc.symm), if_neg (fun hc => hk2 hc.symm), getAttr_nil, hv]
    rfl

/-- Witness for C3: both branches of `createEntities_spec` evaluated on
concrete inputs (the merge branch on `mergeDemoGraph`, the creation branch on
the empty graph). -/
theorem createEntities_spec_witness :
    (getNodeAttr (createEntities mergeDemoGraph [⟨"n", "widget", []⟩]).graph "n" "name" =
      ((getAttr (entityNodeAttrs ⟨"n", "widget", []⟩) "name").or
        (getNodeAttr mergeDemoGraph "n" "name"))) ∧
    getNodeAttrs (createEntities newGraph [⟨"m", "widget", []⟩]).graph "m" =
      some (entityNodeAttrs ⟨"m", "widget", []⟩) :=
  ⟨((createEntities_spec mergeDemoGraph ⟨"n", "widget", []⟩ (by decide)).1
      (by decide)).2.2 "name",
   ((createEntities_spec newGraph ⟨"m", "widget", []⟩ (by decide)).2.1 (by decide)).2.2⟩

/-!
`createRelations` (src/graphologyManager.ts lines 106-143).
-/

/-- Input record for `createRelations` (`RelationInput` in src/types.ts). -/
structure RelationInput where
  id : String
  source : String
  target : String
  type : String
  attributes : AttrMap
deriving Repr, DecidableEq

/-- The composed edge attribute object `{ ...relation.attributes, type: relation.type }`. -/
def relationEdgeAttrs (r : RelationInput) : AttrMap :=
  mergeAttrs r.attributes [("type", Value.str r.type)]

/-- The edge a successfully processed relation input adds. -/
def RelationInput.toEdge (r : RelationInput) : Edge :=
  ⟨r.id, r.source, r.target, relationEdgeAttrs r, false⟩

/-- Per-item error string for a missing source node. -/
def srcErrMsg (r : RelationInput) : String :=
  "Source node " ++ r.source ++ " does not exist for relation."

/-- Per-item error string for a missing target node. -/
def tgtErrMsg (r : RelationInput) : String :=
  "Target node " ++ r.target ++ " does not exist for relation."

/-- Per-item error string for a duplicate edge id (the `catch` branch that
fires exactly when `hasEdge(relation.id)` holds). -/
def dupErrMsg (r : RelationInput) : String :=
  "Relation with ID " ++ r.id ++ " already exists."

/-- Result of `createRelations`: graph plus created keys and per-item errors. -/
structure CreateRelationsResult where
  graph : Graph
  createdKeys : List String
  errors : List String
deriving Repr, DecidableEq

/-- Models `createRelations`: per item in order — missing source, then missing
target, then duplicate edge id each record an error string and skip the item;
otherwise the edge is added with the given key.  (The source checks
`!hasNode(source)` / `!hasNode(target)` first and reaches the duplicate-id
error through `addEdgeWithKey`'s exception; the branch order here is the
same.) -/
def createRelations (g : Graph) : List RelationInput → CreateRelationsResult
  | [] => ⟨g, [], []⟩
  | rel :: rest =>
    if hasNode g rel.source then
      if hasNode g rel.target then
        if hasEdge g rel.id then
          let r := createRelations g rest
          ⟨r.graph, r.createdKeys, dupErrMsg rel :: r.errors⟩
        else
          let r := createRelations
            (addEdgeWithKey g rel.id rel.source rel.target (relationEdgeAttrs rel)) rest
          ⟨r.graph, rel.id :: r.createdKeys, r.errors⟩
      else
        let r := createRelations g rest
        ⟨r.graph, r.createdKeys, tgtErrMsg rel :: r.errors⟩
    else
      let r := createRelations g rest
      ⟨r.graph, r.createdKeys, srcErrMsg rel :: r.errors⟩

theorem hasNode_addEdgeWithKey (g : Graph) (k s t x : String) (attrs : AttrMap) :
    hasNode (addEdgeWithKey g k s t attrs) x = hasNode g x := rfl

theorem hasEdge_addEdgeWithKey (g : Graph) (k s t k' : String) (attrs : AttrMap) :
    hasEdge (addEdgeWithKey g k s t attrs) k' = (hasEdge g k' || k = k') := by
  simp [hasEdge, addEdgeWithKey, List.any_append, decide_eq_true_eq]

theorem createRelations_nodes (g : Graph) (rels : List RelationInput) :
    (createRelations g rels).graph.nodes = g.nodes := by
  induction rels generalizing g with
  | nil => rfl
  | cons rel rest ih =>
    rw [createRelations]
    by_cases hs : hasNode g rel.source = true
    · by_cases ht : hasNode g rel.target = true
      · by_cases he : hasEdge g rel.id = true
        · simp only [hs, ht, he, if_true]
          exact ih g
        · simp only [hs, ht, he, if_true, Bool.false_eq_true, if_false]
          exact ih _
      · simp only [hs, ht, if_true, Bool.false_eq_true, if_false]
        exact ih g
    · simp only [hs, Bool.false_eq_true, if_false]
      exact ih g

theorem createRelations_count (g : Graph) (rels : List RelationInput) :
    (createRelations g rels).createdKeys.length + (createRelations g rels).errors.length =
      rels.length := by
  induction rels generalizing g with
  | nil => rfl
  | cons rel rest ih =>
    rw [createRelations]
    by_cases hs : hasNode g rel.source = true
    · by_cases ht : hasNode g rel.target = true
      · by_cases he : hasEdge g rel.id = true
        · simp only [hs, ht, he, if_true, List.length_cons]
          rw [← ih g]
          omega
        · simp only [hs, ht, he, if_true, Bool.false_eq_true, if_false, List.length_cons]
          rw [← ih (addEdgeWithKey g rel.id rel.source rel.target (relationEdgeAttrs rel))]
          omega
      · simp only [hs, ht, if_true, Bool.false_eq_true, if_false, List.length_cons]
        rw [← ih g]
        omega
    · simp only [hs, Bool.false_eq_true, if_false, List.length_cons]
      rw [← ih g]
      omega

theorem createRelations_edges_mono (g : Graph) (rels : List RelationInput) :
    ∀ ed ∈ g.edges, ed ∈ (createRelations g rels).graph.edges := by
  induction rels generalizing g with
  | nil => intro ed hed; exact hed
  | cons rel rest ih =>
    intro ed hed
    rw [createRelations]
    by_cases hs : hasNode g rel.source = true
    · by_cases ht : hasNode g rel.target = true
      · by_cases he : hasEdge g rel.id = true
        · simp only [hs, ht, he, if_true]
          exact ih g ed hed
        · simp only [hs, ht, he, if_true, Bool.false_eq_true, if_false]
          exact ih _ ed (by simp [addEdgeWithKey, hed])
      · simp only [hs, ht, if_true, Bool.false_eq_true, if_false]
        exact ih g ed hed
    · simp only [hs, Bool.false_eq_true, if_false]
      exact ih g ed hed

theorem createRelations_hasEdge_mono (g : Graph) (rels : List RelationInput) (k : String)
    (h : hasEdge g k = true) : hasEdge (createRelations g rels).graph k = true := by
  rw [hasEdge, List.any_eq_true] at h ⊢
  obtain ⟨e, he, hk⟩ := h
  exact ⟨e, createRelations_edges_mono g rels e he, hk⟩

theorem createRelations_srcErr (g : Graph) (rels : List RelationInput) :
    ∀ rel ∈ rels, hasNode g rel.source = false →
      srcErrMsg rel ∈ (createRelations g rels).errors := by
  induction rels generalizing g with
  | nil => intro rel h; exact absurd h (List.not_mem_nil rel)
  | cons rel0 rest ih =>
    intro rel hrel hbad
    rw [createRelations]
    rcases List.mem_cons.1 hrel with rfl | htail
    · simp only [hbad, Bool.false_eq_true, if_false]
      exact List.mem_cons_self _ _
    · by_cases hs : hasNode g rel0.source = true
      · by_cases ht : hasNode g rel0.target = true
        · by_cases he : hasEdge g rel0.id = true
          · simp only [hs, ht, he, if_true]
            exact List.mem_cons_of_mem _ (ih g rel htail hbad)
          · simp only [hs, ht, he, if_true, Bool.false_eq_true, if_false]
            exact ih _ rel htail hbad
        · simp only [hs, ht, if_true, Bool.false_eq_true, if_false]
          exact List.mem_cons_of_mem _ (ih g rel htail hbad)
      · simp only [hs, Bool.false_eq_true, if_false]
        exact List.mem_cons_of_mem _ (ih g rel htail hbad)

theorem createRelations_tgtErr (g : Graph) (rels : List RelationInput) :
    ∀ rel ∈ rels, hasNode g rel.source = true → hasNode g rel.target = false →
      tgtErrMsg rel ∈ (createRelations g rels).errors := by
  induction rels generalizing g with
  | nil => intro rel h; exact absurd h (List.not_mem_nil rel)
  | cons rel0 rest ih =>
    intro rel hrel hgood hbad
    rw [createRelations]
    rcases List.mem_cons.1 hrel with rfl | htail
    · simp only [hgood, if_true, hbad, Bool.false_eq_true, if_false]
      exact List.mem_cons_self _ _
    · by_cases hs : hasNode g rel0.source = true
      · by_cases ht : hasNode g rel0.target = true
        · by_cases he : hasEdge g rel0.id = true
          · simp only [hs, ht, he, if_true]
            exact List.mem_cons_of_mem _ (ih g rel htail hgood hbad)
          · simp only [hs, ht, he, if_true, Bool.false_eq_true, if_false]
            exact ih _ rel htail hgood hbad
        · simp only [hs, ht, if_true, Bool.false_eq_true, if_false]
          exact List.mem_cons_of_mem _ (ih g rel htail hgood hbad)
      · simp only [hs, Bool.false_eq_true, if_false]
        exact List.mem_cons_of_mem _ (ih g rel htail hgood hbad)

theorem createRelations_dupErr (g : Graph) (rels : List RelationInput) :
    ∀ rel ∈ rels, hasNode g rel.source = true → hasNode g rel.target = true →
      hasEdge g rel.id = true → dupErrMsg rel ∈ (createRelations g rels).errors := by
  induction rels generalizing g with
  | nil => intro rel h; exact absurd h (List.not_mem_nil rel)
  | cons rel0 rest ih =>
    intro rel hrel hgs hgt hdup
    rw [createRelations]
    rcases List.mem_cons.1 hrel with rfl | htail
    · simp only [hgs, hgt, hdup, if_true]
      exact List.mem_cons_self _ _
    · by_cases hs : hasNode g rel0.source = true
      · by_cases ht : hasNode g rel0.target = true
        · by_cases he : hasEdge g rel0.id = true
          · simp only [hs, ht, he, if_true]
            exact List.mem_cons_of_mem _ (ih g rel htail hgs hgt hdup)
          · simp only [hs, ht, he, if_true, Bool.false_eq_true, if_false]
            refine ih _ rel htail hgs hgt ?_
            rw [hasEdge_addEdgeWithKey, hdup, Bool.true_or]
        · simp only [hs, ht, if_true, Bool.false_eq_true, if_false]
          exact List.mem_cons_of_mem _ (ih g rel htail hgs hgt hdup)
      · simp only [hs, Bool.false_eq_true, if_false]
        exact List.mem_cons_of_mem _ (ih g rel htail hgs hgt hdup)

theorem createRelations_new_edges (g : Graph) (rels : List RelationInput) :
    ∀ ed ∈ (createRelations g rels).graph.edges, ed ∈ g.edges ∨
      ∃ rel ∈ rels, hasNode g rel.source = true ∧ hasNode g rel.target = true ∧
        ed = rel.toEdge := by
  induction rels generalizing g with
  | nil => intro ed hed; exact Or.inl hed
  | cons rel0 rest ih =>
    intro ed hed
    rw [createRelations] at hed
    by_cases hs : hasNode g rel0.source = true
    · by_cases ht : hasNode g rel0.target = true
      · by_cases he : hasEdge g rel0.id = true
        · simp only [hs, ht, he, if_true] at hed
          rcases ih g ed hed with h | ⟨rel, hm, h1, h2, h3⟩
          · exact Or.inl h
          · exact Or.inr ⟨rel, List.mem_cons_of_mem _ hm, h1, h2, h3⟩
        · simp only [hs, ht, he, if_true, Bool.false_eq_true, if_false] at hed
          rcases ih _ ed hed with h | ⟨rel, hm, h1, h2, h3⟩
          · simp only [addEdgeWithKey, List.mem_append, List.mem_singleton] at h
            rcases h with h | h
            · exact Or.inl h
            · exact Or.inr ⟨rel0, List.mem_cons_self _ _, hs, ht, h⟩
          · exact Or.inr ⟨rel, List.mem_cons_of_mem _ hm, h1, h2, h3⟩
      · simp only [hs, ht, if_true, Bool.false_eq_true, if_false] at hed
        rcases ih g ed hed with h | ⟨rel, hm, h1, h2, h3⟩
        · exact Or.inl h
        · exact Or.inr ⟨rel, List.mem_cons_of_mem _ hm, h1, h2, h3⟩
    · simp only [hs, Bool.false_eq_true, if_false] at hed
      rcases ih g ed hed with h | ⟨rel, hm, h1, h2, h3⟩
      · exact Or.inl h
      · exact Or.inr ⟨rel, List.mem_cons_of_mem _ hm, h1, h2, h3⟩

theorem createRelations_creates (g : Graph) (rels : List RelationInput) :
    ∀ rel ∈ rels, hasNode g rel.source = true → hasNode g rel.target = true →
      hasEdge g rel.id = false →
      (rels.filter (fun x => x.id = rel.id)).length = 1 →
      rel.id ∈ (createRelations g rels).createdKeys ∧
        hasEdge (createRelations g rels).graph rel.id = true := by
  induction rels generalizing g with
  | nil => intro rel h; exact absurd h (List.not_mem_nil rel)
  | cons rel0 rest ih =>
    intro rel hrel hgs hgt hfree hcount
    rw [createRelations]
    rcases List.mem_cons.1 hrel with rfl | htail
    · simp only [hgs, hgt, hfree, if_true, Bool.false_eq_true, if_false]
      constructor
      · exact List.mem_cons_self _ _
      · apply createRelations_hasEdge_mono
        rw [hasEdge_addEdgeWithKey, decide_eq_true rfl, Bool.or_true]
    · have hne : ¬rel0.id = rel.id := by
        intro hc
        simp [List.filter_cons, hc] at hcount
        have hmem : rel ∈ rest.filter (fun x => decide (x.id = rel.id)) :=
          List.mem_filter.2 ⟨htail, by simp⟩
        have hnil : rest.filter (fun x => decide (x.id = rel.id)) = [] := by
          simpa [List.length_eq_zero] using hcount
        rw [hnil] at hmem
        exact absurd hmem (List.not_mem_nil rel)
      have hcount' : (rest.filter (fun x => x.id = rel.id)).length = 1 := by
        rw [List.filter_cons] at hcount
        simpa [hne] using hcount
      by_cases hs : hasNode g rel0.source = true
      · by_cases ht : hasNode g rel0.target = true
        · by_cases he : hasEdge g rel0.id = true
          · simp only [hs, ht, he, if_true]
            exact ih g rel htail hgs hgt hfree hcount'
          · simp only [hs, ht, he, if_true, Bool.false_eq_true, if_false]
            have hfree' : hasEdge
                (addEdgeWithKey g rel0.id rel0.source rel0.target (relationEdgeAttrs rel0))
                rel.id = false := by
              rw [hasEdge_addEdgeWithKey, hfree]
              simpa using hne
            have hrec := ih
              (addEdgeWithKey g rel0.id rel0.source rel0.target (relationEdgeAttrs rel0))
              rel htail hgs hgt hfree' hcount'
            exact ⟨List.mem_cons_of_mem _ hrec.1, hrec.2⟩
        · simp only [hs, ht, if_true, Bool.false_eq_true, if_false]
          exact ih g rel htail hgs hgt hfree hcount'
      · simp only [hs, Bool.false_eq_true, if_false]
        exact ih g rel htail hgs hgt hfree hcount'

/-- C4: `createRelations` never aborts on a bad item — every item of the batch
is processed and yields exactly one of a created key or a per-item error
(their counts sum to the batch length); the node set is never touched; an
item whose source (or target) node is missing contributes its error string
and adds nothing (every edge of the result is either an old edge or the edge
of an item whose endpoints both exist); an item whose edge id already exists
contributes the duplicate error; and a valid item — endpoints present, edge
id fresh and unique in the batch — has its edge created even when other items
of the same batch are bad. -/
theorem createRelations_spec (g : Graph) (rels : List RelationInput) :
    (createRelations g rels).graph.nodes = g.nodes ∧
    (createRelations g rels).createdKeys.length + (createRelations g rels).errors.length =
      rels.length ∧
    (∀ rel ∈ rels, hasNode g rel.source = false →
      srcErrMsg rel ∈ (createRelations g rels).errors) ∧
    (∀ rel ∈ rels, hasNode g rel.source = true → hasNode g rel.target = false →
      tgtErrMsg rel ∈ (createRelations g rels).errors) ∧
    (∀ rel ∈ rels, hasNode g rel.source = true → hasNode g rel.target = true →
      hasEdge g rel.id = true → dupErrMsg rel ∈ (createRelations g rels).errors) ∧
    (∀ ed ∈ (createRelations g rels).graph.edges, ed ∈ g.edges ∨
      ∃ rel ∈ rels, hasNode g rel.source = true ∧ hasNode g rel.target = true ∧
        ed = rel.toEdge) ∧
    (∀ rel ∈ rels, hasNode g rel.source = true → hasNode g rel.target = true →
      hasEdge g rel.id = false →
      (rels.filter (fun x => x.id = rel.id)).length = 1 →
      rel.id ∈ (createRelations g rels).createdKeys ∧
        hasEdge (createRelations g rels).graph rel.id = true) :=
  ⟨createRelations_nodes g rels, createRelations_count g rels,
   createRelations_srcErr g rels, createRelations_tgtErr g rels,
   createRelations_dupErr g rels, createRelations_new_edges g rels,
   createRelations_creates g rels⟩

/-- Base graph for the C4 witness: nodes `a`, `b`, and an existing edge `r0`. -/
def relDemoGraph : Graph :=
  ⟨[("a", [("type", Value.str "function")]), ("b", [("type", Value.str "class")])],
   [⟨"r0", "a", "b", [("type", Value.str "calls")], false⟩]⟩

/-- The C4 witness batch: one valid item, one missing-source item, one
missing-target item and one duplicate-id item, in one call. -/
def relDemoBatch : List RelationInput :=
  [⟨"r1", "a", "b", "calls", []⟩,
   ⟨"rx", "c", "a", "calls", []⟩,
   ⟨"ry", "a", "c", "calls", []⟩,
   ⟨"r0", "a", "b", "calls", []⟩]

/-- Witness for C4: on `relDemoGraph` and `relDemoBatch`, the bad items
produce their error strings, the valid item `r1` still creates its edge, and
the counts add up. -/
theorem createRelations_spec_witness :
    srcErrMsg ⟨"rx", "c", "a", "calls", []⟩ ∈ (createRelations relDemoGraph relDemoBatch).errors ∧
    tgtErrMsg ⟨"ry", "a", "c", "calls", []⟩ ∈ (createRelations relDemoGraph relDemoBatch).errors ∧
    dupErrMsg ⟨"r0", "a", "b", "calls", []⟩ ∈ (createRelations relDemoGraph relDemoBatch).errors ∧
    "r1" ∈ (createRelations relDemoGraph relDemoBatch).createdKeys ∧
    hasEdge (createRelations relDemoGraph relDemoBatch).graph "r1" = true ∧
    (createRelations relDemoGraph relDemoBatch).createdKeys.length +
      (createRelations relDemoGraph relDemoBatch).errors.length = relDemoBatch.length := by
  have h := createRelations_spec relDemoGraph relDemoBatch
  have hvalid := h.2.2.2.2.2.2 ⟨"r1", "a", "b", "calls", []⟩ (by decide) (by decide) (by decide)
    (by decide) (by decide)
  exact ⟨h.2.2.1 ⟨"rx", "c", "a", "calls", []⟩ (by decide) (by decide),
    h.2.2.2.1 ⟨"ry", "a", "c", "calls", []⟩ (by decide) (by decide) (by decide),
    h.2.2.2.2.1 ⟨"r0", "a", "b", "calls", []⟩ (by decide) (by decide) (by decide) (by decide),
    hvalid.1, hvalid.2, h.2.1⟩

/-!
`createObservations` (src/graphologyManager.ts lines 145-192) and the
remaining mutation methods (lines 246-286).
-/

/-- Input record for `createObservations` (`ObservationInput` in src/types.ts). -/
structure ObservationInput where
  id : String
  content : String
  relatedEntityIds : List String
  tags : Option (List String)
  attributes : AttrMap
deriving Repr, DecidableEq

/-- The deterministic relates-to edge key
`` `${obsNodeId}-relates_to->${entityId}` ``. -/
def obsEdgeKey (obsId entityId : String) : String :=
  obsId ++ "-relates_to->" ++ entityId

/-- The `console.warn` message for a related entity that does not exist. -/
def obsWarnMsg (obsId entityId : String) : String :=
  "Cannot link observation " ++ obsId ++ ": Related entity " ++ entityId ++ " not found."

/-- The `tags` binding of the observation-node object.  When no tags are
given the JS object carries `tags: undefined`, which every read in this
codebase treats like an absent key and which JSON persistence drops; it is
modelled as absent. -/
def obsTagsAttrs (o : ObservationInput) : AttrMap :=
  match o.tags with
  | some ts => [("tags", Value.arr ts)]
  | none => []

/-- The forced bindings of the observation-node object, in literal order. -/
def obsForcedAttrs (o : ObservationInput) : AttrMap :=
  [("type", Value.str "observation"),
   ("name", Value.str ("Observation " ++ o.id)),
   ("content", Value.str o.content)] ++ obsTagsAttrs o

/-- The composed observation-node attribute object (provided attributes plus
the forced bindings). -/
def obsNodeAttrs (o : ObservationInput) : AttrMap :=
  mergeAttrs o.attributes (obsForcedAttrs o)

/-- The relates-to linking loop of `createObservations`: for each related
entity id in order, an existing entity gets the deterministic edge unless the
edge key is already present (idempotent no-op); a missing entity produces a
warning and no mutation. -/
def obsLinkAll (obsId : String) : Graph → List String → List String → Graph × List String
  | g, [], warns => (g, warns)
  | g, e :: rest, warns =>
    if hasNode g e then
      obsLinkAll obsId
        (if hasEdge g (obsEdgeKey obsId e) then g
         else addEdgeWithKey g (obsEdgeKey obsId e) obsId e [("type", Value.str "relates_to")])
        rest warns
    else
      obsLinkAll obsId g rest (warns ++ [obsWarnMsg obsId e])

/-- Result of `createObservations`: the graph, the ids of newly created
observation nodes, and the warning-level signals (`console.warn` output) for
skipped links. -/
structure CreateObservationsResult where
  graph : Graph
  createdIds : List String
  warnings : List String
deriving Repr, DecidableEq

/-- Models `createObservations`: per input, create (or attribute-merge) the
observation node, then run the linking loop. -/
def createObservations (g : Graph) : List ObservationInput → CreateObservationsResult
  | [] => ⟨g, [], []⟩
  | o :: rest =>
    let g1 := if hasNode g o.id then mergeNodeAttributes g o.id (obsNodeAttrs o)
              else addNode g o.id (obsNodeAttrs o)
    let lw := obsLinkAll o.id g1 o.relatedEntityIds []
    let r := createObservations lw.1 rest
    ⟨r.graph, (if hasNode g o.id then [] else [o.id]) ++ r.createdIds, lw.2 ++ r.warnings⟩

/-- Result of `updateEntities`. -/
structure UpdateEntitiesResult where
  graph : Graph
  updatedIds : List String
  notFoundIds : List String
deriving Repr, DecidableEq

/-- Models `updateEntities` (lines 246-258): merge-only, per input id. -/
def updateEntities (g : Graph) : List (String × AttrMap) → UpdateEntitiesResult
  | [] => ⟨g, [], []⟩
  | u :: rest =>
    if hasNode g u.1 then
      let r := updateEntities (mergeNodeAttributes g u.1 u.2) rest
      ⟨r.graph, u.1 :: r.updatedIds, r.notFoundIds⟩
    else
      let r := updateEntities g rest
      ⟨r.graph, r.updatedIds, u.1 :: r.notFoundIds⟩

/-- Result of `deleteEntities`. -/
structure DeleteEntitiesResult where
  graph : Graph
  deletedIds : List String
  notFoundIds : List String
deriving Repr, DecidableEq

/-- Models `deleteEntities` (lines 260-272): `dropNode` cascades to all
incident edges. -/
def deleteEntities (g : Graph) : List String → DeleteEntitiesResult
  | [] => ⟨g, [], []⟩
  | id :: rest =>
    if hasNode g id then
      let r := deleteEntities (dropNode g id) rest
      ⟨r.graph, id :: r.deletedIds, r.notFoundIds⟩
    else
      let r := deleteEntities g rest
      ⟨r.graph, r.deletedIds, id :: r.notFoundIds⟩

/-- Result of `deleteRelations`. -/
structure DeleteRelationsResult where
  graph : Graph
  deletedKeys : List String
  notFoundKeys : List String
deriving Repr, DecidableEq

/-- Models `deleteRelations` (lines 274-286). -/
def deleteRelations (g : Graph) : List String → DeleteRelationsResult
  | [] => ⟨g, [], []⟩
  | k :: rest =>
    if hasEdge g k then
      let r := deleteRelations (dropEdge g k) rest
      ⟨r.graph, k :: r.deletedKeys, r.notFoundKeys⟩
    else
      let r := deleteRelations g rest
      ⟨r.graph, r.deletedKeys, k :: r.notFoundKeys⟩

/-!
Referential integrity: `WellFormed` is preserved by every primitive and every
mutation method.
-/

theorem hasNode_dropNode (g : Graph) (id x : String) :
    hasNode (dropNode g id) x = true ↔ hasNode g x = true ∧ x ≠ id := by
  simp only [hasNode, dropNode, List.any_eq_true, List.mem_filter, decide_eq_true_eq]
  constructor
  · rintro ⟨n, ⟨hn, hne⟩, rfl⟩
    exact ⟨⟨n, hn, rfl⟩, by simpa using hne⟩
  · rintro ⟨⟨n, hn, rfl⟩, hne⟩
    exact ⟨n, ⟨hn, by simpa using hne⟩, rfl⟩

theorem wf_addNode (g : Graph) (id : String) (attrs : AttrMap)
    (h : WellFormed g) : WellFormed (addNode g id attrs) := by
  intro e he
  have he' : e ∈ g.edges := he
  have := h e he'
  rw [hasNode_addNode', hasNode_addNode', this.1, this.2]
  simp

theorem wf_mergeNodeAttributes (g : Graph) (id : String) (attrs : AttrMap)
    (h : WellFormed g) : WellFormed (mergeNodeAttributes g id attrs) := by
  intro e he
  have he' : e ∈ g.edges := he
  have := h e he'
  rw [hasNode_mergeNodeAttributes, hasNode_mergeNodeAttributes]
  exact this

theorem wf_addEdgeWithKey (g : Graph) (k s t : String) (attrs : AttrMap)
    (hs : hasNode g s = true) (ht : hasNode g t = true)
    (h : WellFormed g) : WellFormed (addEdgeWithKey g k s t attrs) := by
  intro e he
  simp only [addEdgeWithKey, List.mem_append, List.mem_singleton] at he
  rcases he with he | rfl
  · exact h e he
  · exact ⟨hs, ht⟩

theorem wf_dropNode (g : Graph) (id : String)
    (h : WellFormed g) : WellFormed (dropNode g id) := by
  intro e he
  simp only [dropNode, List.mem_filter, decide_eq_true_eq] at he
  obtain ⟨he', hne⟩ := he
  have hb := h e he'
  constructor
  · exact (hasNode_dropNode g id e.source).2 ⟨hb.1, hne.1⟩
  · exact (hasNode_dropNode g id e.target).2 ⟨hb.2, hne.2⟩

theorem wf_dropEdge (g : Graph) (k : String)
    (h : WellFormed g) : WellFormed (dropEdge g k) := by
  intro e he
  simp only [dropEdge, List.mem_filter] at he
  exact h e he.1

theorem wf_createEntities (g : Graph) (es : List EntityInput)
    (h : WellFormed g) : WellFormed (createEntities g es).graph := by
  induction es generalizing g with
  | nil => exact h
  | cons e rest ih =>
    rw [createEntities]
    by_cases hm : hasNode g e.id = true
    · simp only [hm, if_true]
      exact ih _ (wf_mergeNodeAttributes g e.id (entityNodeAttrs e) h)
    · simp only [hm, Bool.false_eq_true, if_false]
      exact ih _ (wf_addNode g e.id (entityNodeAttrs e) h)

theorem wf_createRelations (g : Graph) (rs : List RelationInput)
    (h : WellFormed g) : WellFormed (createRelations g rs).graph := by
  induction rs generalizing g with
  | nil => exact h
  | cons rel rest ih =>
    rw [createRelations]
    by_cases hs : hasNode g rel.source = true
    · by_cases ht : hasNode g rel.target = true
      · by_cases he : hasEdge g rel.id = true
        · simp only [hs, ht, he, if_true]
          exact ih g h
        · simp only [hs, ht, he, if_true, Bool.false_eq_true, if_false]
          exact ih _ (wf_addEdgeWithKey g rel.id rel.source rel.target _ hs ht h)
      · simp only [hs, ht, if_true, Bool.false_eq_true, if_false]
        exact ih g h
    · simp only [hs, Bool.false_eq_true, if_false]
      exact ih g h

theorem hasNode_obsLinkAll (obsId : String) (g : Graph) (ids warns : List String) (x : String) :
    hasNode (obsLinkAll obsId g ids warns).1 x = hasNode g x := by
  induction ids generalizing g warns with
  | nil => rfl
  | cons e rest ih =>
    rw [obsLinkAll]
    by_cases hn : hasNode g e = true
    · simp only [hn, if_true]
      by_cases hk : hasEdge g (obsEdgeKey obsId e) = true
      · simp only [hk, if_true]
        exact ih g warns
      · simp only [hk, Bool.false_eq_true, if_false]
        exact ih _ warns
    · simp only [hn, Bool.false_eq_true, if_false]
      exact ih g _

theorem wf_obsLinkAll (obsId : String) (g : Graph) (ids warns : List String)
    (hobs : hasNode g obsId = true) (h : WellFormed g) :
    WellFormed (obsLinkAll obsId g ids warns).1 := by
  induction ids generalizing g warns with
  | nil => exact h
  | cons e rest ih =>
    rw [obsLinkAll]
    by_cases hn : hasNode g e = true
    · simp only [hn, if_true]
      by_cases hk : hasEdge g (obsEdgeKey obsId e) = true
      · simp only [hk, if_true]
        exact ih g warns hobs h
      · simp only [hk, Bool.false_eq_true, if_false]
        exact ih _ warns hobs (wf_addEdgeWithKey g _ obsId e _ hobs hn h)
    · simp only [hn, Bool.false_eq_true, if_false]
      exact ih g _ hobs h

theorem wf_createObservations (g : Graph) (os : List ObservationInput)
    (h : WellFormed g) : WellFormed (createObservations g os).graph := by
  induction os generalizing g with
  | nil => exact h
  | cons o rest ih =>
    rw [createObservations]
    by_cases hm : hasNode g o.id = true
    · simp only [hm, if_true]
      refine ih _ (wf_obsLinkAll o.id _ o.relatedEntityIds [] ?_
        (wf_mergeNodeAttributes g o.id (obsNodeAttrs o) h))
      rw [hasNode_mergeNodeAttributes]
      exact hm
    · simp only [hm, Bool.false_eq_true, if_false]
      refine ih _ (wf_obsLinkAll o.id _ o.relatedEntityIds [] ?_
        (wf_addNode g o.id (obsNodeAttrs o) h))
      rw [hasNode_addNode']
      simp

theorem wf_updateEntities (g : Graph) (us : List (String × AttrMap))
    (h : WellFormed g) : WellFormed (updateEntities g us).graph := by
  induction us generalizing g with
  | nil => exact h
  | cons u rest ih =>
    rw [updateEntities]
    by_cases hm : hasNode g u.1 = true
    · simp only [hm, if_true]
      exact ih _ (wf_mergeNodeAttributes g u.1 u.2 h)
    · simp only [hm, Bool.false_eq_true, if_false]
      exact ih g h

theorem wf_deleteEntities (g : Graph) (ids : List String)
    (h : WellFormed g) : WellFormed (deleteEntities g ids).graph := by
  induction ids generalizing g with
  | nil => exact h
  | cons id rest ih =>
    rw [deleteEntities]
    by_cases hm : hasNode g id = true
    · simp only [hm, if_true]
      exact ih _ (wf_dropNode g id h)
    · simp only [hm, Bool.false_eq_true, if_false]
      exact ih g h

theorem wf_deleteRelations (g : Graph) (ks : List String)
    (h : WellFormed g) : WellFormed (deleteRelations g ks).graph := by
  induction ks generalizing g with
  | nil => exact h
  | cons k rest ih =>
    rw [deleteRelations]
    by_cases hm : hasEdge g k = true
    · simp only [hm, if_true]
      exact ih _ (wf_dropEdge g k h)
    · simp only [hm, Bool.false_eq_true, if_false]
      exact ih g h

/-- C2: referential integrity is an invariant of every mutation operation —
starting from any well-formed graph, `createEntities`, `createRelations`,
`createObservations`, `updateEntities`, `deleteEntities` and
`deleteRelations` all leave every edge's endpoints pointing at existing
nodes — and after `deleteEntities [X]` the node `X` is gone and no edge with
source or target `X` remains (incident edges cascade in both directions,
self-loops included). -/
theorem referential_integrity_spec (g : Graph) (hw : WellFormed g) :
    (∀ es, WellFormed (createEntities g es).graph) ∧
    (∀ rs, WellFormed (createRelations g rs).graph) ∧
    (∀ os, WellFormed (createObservations g os).graph) ∧
    (∀ us, WellFormed (updateEntities g us).graph) ∧
    (∀ ids, WellFormed (deleteEntities g ids).graph) ∧
    (∀ ks, WellFormed (deleteRelations g ks).graph) ∧
    ∀ X, hasNode (deleteEntities g [X]).graph X = false ∧
      ∀ e ∈ (deleteEntities g [X]).graph.edges, e.source ≠ X ∧ e.target ≠ X := by
  refine ⟨fun es => wf_createEntities g es hw, fun rs => wf_createRelations g rs hw,
    fun os => wf_createObservations g os hw, fun us => wf_updateEntities g us hw,
    fun ids => wf_deleteEntities g ids hw, fun ks => wf_deleteRelations g ks hw,
    fun X => ?_⟩
  rw [deleteEntities]
  by_cases hm : hasNode g X = true
  · have hgr : (if hasNode g X then
          let r := deleteEntities (dropNode g X) []
          (⟨r.graph, X :: r.deletedIds, r.notFoundIds⟩ : DeleteEntitiesResult)
        else
          let r := deleteEntities g []
          ⟨r.graph, r.deletedIds, X :: r.notFoundIds⟩).graph = dropNode g X := by
      simp [hm, deleteEntities]
    rw [hgr]
    constructor
    · by_cases hx : hasNode (dropNode g X) X = true
      · exact absurd ((hasNode_dropNode g X X).1 hx).2 (fun hc => hc rfl)
      · simpa using hx
    · intro e he
      simp only [dropNode, List.mem_filter, decide_eq_true_eq] at he
      exact he.2
  · have hgr : (if hasNode g X then
          let r := deleteEntities (dropNode g X) []
          (⟨r.graph, X :: r.deletedIds, r.notFoundIds⟩ : DeleteEntitiesResult)
        else
          let r := deleteEntities g []
          ⟨r.graph, r.deletedIds, X :: r.notFoundIds⟩).graph = g := by
      simp [hm, deleteEntities]
    rw [hgr]
    refine ⟨by simpa using hm, fun e he => ?_⟩
    have hb := hw e he
    constructor
    · intro hc
      rw [hc] at hb
      exact absurd hb.1 (by simpa using hm)
    · intro hc
      rw [hc] at hb
      exact absurd hb.2 (by simpa using hm)

/-- Concrete graph for the C2 witness: node `a` has an outgoing edge, an
incoming edge and a self-loop. -/
def delDemoGraph : Graph :=
  ⟨[("a", [("type", Value.str "t")]), ("b", [("type", Value.str "t")])],
   [⟨"r0", "a", "b", [("type", Value.str "calls")], false⟩,
    ⟨"loop", "a", "a", [("type", Value.str "l")], false⟩,
    ⟨"rin", "b", "a", [("type", Value.str "calls")], false⟩]⟩

/-- Witness for C2: deleting `a` from `delDemoGraph` removes the node and all
three incident edges (outgoing, incoming and the self-loop), and the result
is still well-formed. -/
theorem referential_integrity_spec_witness :
    hasNode (deleteEntities delDemoGraph ["a"]).graph "a" = false ∧
    (∀ e ∈ (deleteEntities delDemoGraph ["a"]).graph.edges,
      e.source ≠ "a" ∧ e.target ≠ "a") ∧
    WellFormed (deleteEntities delDemoGraph ["a"]).graph := by
  have h := referential_integrity_spec delDemoGraph (by decide)
  exact ⟨(h.2.2.2.2.2.2 "a").1, (h.2.2.2.2.2.2 "a").2, h.2.2.2.2.1 ["a"]⟩

/-!
Lemmas about the relates-to linking loop, for C8.
-/

/-- Number of edges carrying a given key. -/
def edgeKeyCount (g : Graph) (k : String) : Nat :=
  (g.edges.filter (fun e => e.key = k)).length

theorem edgeKeyCount_eq_zero (g : Graph) (k : String) (h : hasEdge g k = false) :
    edgeKeyCount g k = 0 := by
  rw [edgeKeyCount, List.length_eq_zero, List.filter_eq_nil_iff]
  intro e he
  have := List.any_eq_false.mp h e he
  simpa using this

theorem obsLinkAll_edges (obsId : String) (g : Graph) (ids warns : List String) :
    ∃ new, (obsLinkAll obsId g ids warns).1.edges = g.edges ++ new ∧
      ∀ ed ∈ new, ed.source = obsId ∧ hasNode g ed.target = true := by
  induction ids generalizing g warns with
  | nil => exact ⟨[], by simp [obsLinkAll]⟩
  | cons e rest ih =>
    rw [obsLinkAll]
    by_cases hn : hasNode g e = true
    · simp only [hn, if_true]
      by_cases hk : hasEdge g (obsEdgeKey obsId e) = true
      · simp only [hk, if_true]
        exact ih g warns
      · simp only [hk, Bool.false_eq_true, if_false]
        obtain ⟨new, hnew, hprop⟩ :=
          ih (addEdgeWithKey g (obsEdgeKey obsId e) obsId e [("type", Value.str "relates_to")])
            warns
        refine ⟨⟨obsEdgeKey obsId e, obsId, e, [("type", Value.str "relates_to")], false⟩ :: new,
          ?_, ?_⟩
        · rw [hnew]
          simp [addEdgeWithKey]
        · intro ed hed
          rcases List.mem_cons.1 hed with rfl | hed
          · exact ⟨rfl, hn⟩
          · exact hprop ed hed
    · simp only [hn, Bool.false_eq_true, if_false]
      exact ih g _

theorem obsLinkAll_hasEdge_mono (obsId : String) (g : Graph) (ids warns : List String)
    (k : String) (h : hasEdge g k = true) :
    hasEdge (obsLinkAll obsId g ids warns).1 k = true := by
  obtain ⟨new, hnew, -⟩ := obsLinkAll_edges obsId g ids warns
  rw [hasEdge, List.any_eq_true] at h ⊢
  obtain ⟨e, he, hk⟩ := h
  exact ⟨e, by rw [hnew]; exact List.mem_append_left _ he, hk⟩

theorem obsLinkAll_linked (obsId : String) (g : Graph) (ids warns : List String) :
    ∀ e ∈ ids, hasNode g e = true →
      hasEdge (obsLinkAll obsId g ids warns).1 (obsEdgeKey obsId e) = true := by
  induction ids generalizing g warns with
  | nil => intro e h; exact absurd h (List.not_mem_nil e)
  | cons e0 rest ih =>
    intro e he hn
    rw [obsLinkAll]
    rcases List.mem_cons.1 he with rfl | htail
    · simp only [hn, if_true]
      by_cases hk : hasEdge g (obsEdgeKey obsId e) = true
      · simp only [hk, if_true]
        exact obsLinkAll_hasEdge_mono obsId g rest warns _ hk
      · simp only [hk, Bool.false_eq_true, if_false]
        refine obsLinkAll_hasEdge_mono obsId _ rest warns _ ?_
        rw [hasEdge_addEdgeWithKey]
        simp
    · by_cases hn0 : hasNode g e0 = true
      · simp only [hn0, if_true]
        by_cases hk : hasEdge g (obsEdgeKey obsId e0) = true
        · simp only [hk, if_true]
          exact ih g warns e htail hn
        · simp only [hk, Bool.false_eq_true, if_false]
          exact ih _ warns e htail hn
      · simp only [hn0, Bool.false_eq_true, if_false]
        exact ih g _ e htail hn

theorem obsLinkAll_warns_mono (obsId : String) (g : Graph) (ids warns : List String) :
    ∀ w ∈ warns, w ∈ (obsLinkAll obsId g ids warns).2 := by
  induction ids generalizing g warns with
  | nil => intro w h; exact h
  | cons e rest ih =>
    intro w hw
    rw [obsLinkAll]
    by_cases hn : hasNode g e = true
    · simp only [hn, if_true]
      by_cases hk : hasEdge g (obsEdgeKey obsId e) = true
      · simp only [hk, if_true]
        exact ih g warns w hw
      · simp only [hk, Bool.false_eq_true, if_false]
        exact ih _ warns w hw
    · simp only [hn, Bool.false_eq_true, if_false]
      exact ih g _ w (List.mem_append_left _ hw)

theorem obsLinkAll_warned (obsId : String) (g : Graph) (ids warns : List String) :
    ∀ e ∈ ids, hasNode g e = false →
      obsWarnMsg obsId e ∈ (obsLinkAll obsId g ids warns).2 := by
  induction ids generalizing g warns with
  | nil => intro e h; exact absurd h (List.not_mem_nil e)
  | cons e0 rest ih =>
    intro e he hn
    rw [obsLinkAll]
    rcases List.mem_cons.1 he with rfl | htail
    · simp only [hn, Bool.false_eq_true, if_false]
      exact obsLinkAll_warns_mono obsId g rest _ _
        (List.mem_append_right _ (List.mem_singleton.2 rfl))
    · by_cases hn0 : hasNode g e0 = true
      · simp only [hn0, if_true]
        by_cases hk : hasEdge g (obsEdgeKey obsId e0) = true
        · simp only [hk, if_true]
          exact ih g warns e htail hn
        · simp only [hk, Bool.false_eq_true, if_false]
          exact ih _ warns e htail hn
      · simp only [hn0, Bool.false_eq_true, if_false]
        exact ih g _ e htail hn

theorem obsLinkAll_keyCount (obsId : String) (g : Graph) (ids warns : List String) (k : String) :
    edgeKeyCount (obsLinkAll obsId g ids warns).1 k ≤ max (edgeKeyCount g k) 1 := by
  induction ids generalizing g warns with
  | nil => exact le_max_left _ _
  | cons e rest ih =>
    rw [obsLinkAll]
    by_cases hn : hasNode g e = true
    · simp only [hn, if_true]
      by_cases hk : hasEdge g (obsEdgeKey obsId e) = true
      · simp only [hk, if_true]
        exact ih g warns
      · simp only [hk, Bool.false_eq_true, if_false]
        refine le_trans (ih _ warns) ?_
        have hcount : edgeKeyCount
            (addEdgeWithKey g (obsEdgeKey obsId e) obsId e [("type", Value.str "relates_to")]) k ≤
            max (edgeKeyCount g k) 1 := by
          by_cases hke : obsEdgeKey obsId e = k
          · have h0 : edgeKeyCount g k = 0 := by
              rw [← hke]
              exact edgeKeyCount_eq_zero g _ (by simpa using hk)
            have : edgeKeyCount
                (addEdgeWithKey g (obsEdgeKey obsId e) obsId e
                  [("type", Value.str "relates_to")]) k = 1 := by
              rw [edgeKeyCount, addEdgeWithKey]
              simp only [List.filter_append]
              rw [List.length_append]
              have h0' : (g.edges.filter (fun e' => e'.key = k)).length = 0 := h0
              rw [h0']
              simp [hke]
            omega
          · have : edgeKeyCount
                (addEdgeWithKey g (obsEdgeKey obsId e) obsId e
                  [("type", Value.str "relates_to")]) k = edgeKeyCount g k := by
              rw [edgeKeyCount, edgeKeyCount, addEdgeWithKey]
              simp only [List.filter_append]
              rw [List.length_append]
              simp [hke]
            rw [this]
            exact le_max_left _ _
        exact max_le hcount (le_max_right _ _)
    · simp only [hn, Bool.false_eq_true, if_false]
      exact ih g _

/-- The node create-or-merge step of `createObservations` for one input. -/
def obsNodeStep (g : Graph) (o : ObservationInput) : Graph :=
  if hasNode g o.id then mergeNodeAttributes g o.id (obsNodeAttrs o)
  else addNode g o.id (obsNodeAttrs o)

theorem createObservations_singleton (g : Graph) (o : ObservationInput) :
    createObservations g [o] =
      ⟨(obsLinkAll o.id (obsNodeStep g o) o.relatedEntityIds []).1,
       if hasNode g o.id then [] else [o.id],
       (obsLinkAll o.id (obsNodeStep g o) o.relatedEntityIds []).2⟩ := by
  rw [createObservations, obsNodeStep]
  by_cases hm : hasNode g o.id = true <;> simp [hm, createObservations]

theorem obsLinkAll_nodes (obsId : String) (g : Graph) (ids warns : List String) :
    (obsLinkAll obsId g ids warns).1.nodes = g.nodes := by
  induction ids generalizing g warns with
  | nil => rfl
  | cons e rest ih =>
    rw [obsLinkAll]
    by_cases hn : hasNode g e = true
    · simp only [hn, if_true]
      by_cases hk : hasEdge g (obsEdgeKey obsId e) = true
      · simp only [hk, if_true]
        exact ih g warns
      · simp only [hk, Bool.false_eq_true, if_false]
        exact ih _ warns
    · simp only [hn, Bool.false_eq_true, if_false]
      exact ih g _

theorem edges_obsNodeStep (g : Graph) (o : ObservationInput) :
    (obsNodeStep g o).edges = g.edges := by
  rw [obsNodeStep]
  by_cases hm : hasNode g o.id = true <;> simp [hm, mergeNodeAttributes, addNode]

theorem hasNode_obsNodeStep (g : Graph) (o : ObservationInput) :
    hasNode (obsNodeStep g o) o.id = true := by
  rw [obsNodeStep]
  by_cases hm : hasNode g o.id = true
  · rw [if_pos hm, hasNode_mergeNodeAttributes]
    exact hm
  · rw [if_neg hm, hasNode_addNode']
    simp

theorem obsNodeAttrs_keys_nodup (o : ObservationInput)
    (hkeys : (o.attributes.map Prod.fst).Nodup) :
    ((obsNodeAttrs o).map Prod.fst).Nodup :=
  keys_mergeAttrs_nodup o.attributes (obsForcedAttrs o) hkeys

theorem obsForcedAttrs_keys_nodup (o : ObservationInput) :
    ((obsForcedAttrs o).map Prod.fst).Nodup := by
  rw [obsForcedAttrs, obsTagsAttrs]
  cases htags : o.tags with
  | none =>
    rw [show (List.map Prod.fst
      ([("type", Value.str "observation"),
        ("name", Value.str ("Observation " ++ o.id)),
        ("content", Value.str o.content)] ++ ([] : AttrMap))) =
      ["type", "name", "content"] from rfl]
    decide
  | some ts =>
    rw [show (List.map Prod.fst
      ([("type", Value.str "observation"),
        ("name", Value.str ("Observation " ++ o.id)),
        ("content", Value.str o.content)] ++ ([("tags", Value.arr ts)] : AttrMap))) =
      ["type", "name", "content", "tags"] from rfl]
    decide

theorem getAttr_obsNodeAttrs_type (o : ObservationInput) :
    getAttr (obsNodeAttrs o) "type" = some (Value.str "observation") := by
  rw [obsNodeAttrs, getAttr_mergeAttrs _ _ _ (obsForcedAttrs_keys_nodup o), obsForcedAttrs]
  rw [show (([("type", Value.str "observation"),
      ("name", Value.str ("Observation " ++ o.id)),
      ("content", Value.str o.content)] ++ obsTagsAttrs o) : AttrMap) =
      ("type", Value.str "observation") ::
        (([("name", Value.str ("Observation " ++ o.id)),
          ("content", Value.str o.content)] ++ obsTagsAttrs o) : AttrMap) from rfl]
  rw [getAttr_cons, if_pos rfl]
  rfl

theorem getNodeAttr_obsNodeStep_type (g : Graph) (o : ObservationInput)
    (hkeys : (o.attributes.map Prod.fst).Nodup) :
    getNodeAttr (obsNodeStep g o) o.id "type" = some (Value.str "observation") := by
  rw [obsNodeStep]
  by_cases hm : hasNode g o.id = true
  · simp only [hm, if_true]
    unfold getNodeAttr
    rw [getNodeAttrs_mergeNodeAttributes_self]
    cases hg : getNodeAttrs g o.id with
    | none =>
      have := getNodeAttrs_isSome g o.id
      rw [hg, hm] at this
      simp at this
    | some m =>
      simp only [Option.map_some', Option.some_bind]
      rw [getAttr_mergeAttrs m (obsNodeAttrs o) "type" (obsNodeAttrs_keys_nodup o hkeys),
        getAttr_obsNodeAttrs_type]
      rfl
  · simp only [hm, Bool.false_eq_true, if_false]
    unfold getNodeAttr
    rw [getNodeAttrs_addNode_self g o.id _ (by simpa using hm)]
    simp only [Option.some_bind]
    exact getAttr_obsNodeAttrs_type o

/-- Graph with a single entity `f1`, for the C8 scenario. -/
def obsDemoGraph : Graph := ⟨[("f1", [("type", Value.str "function")])], []⟩

/-- The C8 scenario input: observation `o1` related to `f1` (exists) and
`missing` (does not). -/
def obsDemoInput : ObservationInput := ⟨"o1", "note", ["f1", "missing"], none, []⟩

/-- C8: `createObservations` creates (or attribute-merges) the observation
node with type `"observation"`; every related entity that exists after the
node step gets the deterministic `relates_to` edge keyed
`` `${obsId}-relates_to->${entityId}` `` (and re-declaring an existing link
adds no duplicate: at most one edge ever carries a given deterministic key);
every related entity that does not exist yields the warning signal and leaves
the edges touching that entity untouched; the call never fails.  On the
scenario graph, `o1 → f1` is created, no edge touches `missing`, and the only
signal is the warning for `missing`. -/
theorem createObservations_spec (g : Graph) (o : ObservationInput)
    (hkeys : (o.attributes.map Prod.fst).Nodup) :
    hasNode (createObservations g [o]).graph o.id = true ∧
    getNodeAttr (createObservations g [o]).graph o.id "type" =
      some (Value.str "observation") ∧
    (∀ e ∈ o.relatedEntityIds, hasNode (obsNodeStep g o) e = true →
      hasEdge (createObservations g [o]).graph (obsEdgeKey o.id e) = true) ∧
    (∀ e ∈ o.relatedEntityIds, hasNode (obsNodeStep g o) e = false →
      obsWarnMsg o.id e ∈ (createObservations g [o]).warnings ∧
      (createObservations g [o]).graph.edges.filter
          (fun ed => ed.source = e ∨ ed.target = e) =
        g.edges.filter (fun ed => ed.source = e ∨ ed.target = e)) ∧
    (∀ k, edgeKeyCount (createObservations g [o]).graph k ≤ max (edgeKeyCount g k) 1) ∧
    (createObservations obsDemoGraph [obsDemoInput]).graph.edges =
      [⟨obsEdgeKey "o1" "f1", "o1", "f1", [("type", Value.str "relates_to")], false⟩] ∧
    (createObservations obsDemoGraph [obsDemoInput]).warnings =
      [obsWarnMsg "o1" "missing"] ∧
    hasNode (createObservations obsDemoGraph [obsDemoInput]).graph "o1" = true := by
  rw [createObservations_singleton]
  refine ⟨?_, ?_, ?_, ?_, ?_, by decide, by decide, by decide⟩
  · show hasNode (obsLinkAll o.id (obsNodeStep g o) o.relatedEntityIds []).1 o.id = true
    rw [hasNode_obsLinkAll]
    exact hasNode_obsNodeStep g o
  · show getNodeAttr (obsLinkAll o.id (obsNodeStep g o) o.relatedEntityIds []).1 o.id "type" =
      some (Value.str "observation")
    unfold getNodeAttr getNodeAttrs
    rw [obsLinkAll_nodes]
    exact getNodeAttr_obsNodeStep_type g o hkeys
  · intro e he hn
    exact obsLinkAll_linked o.id (obsNodeStep g o) o.relatedEntityIds [] e he hn
  · intro e he hn
    refine ⟨obsLinkAll_warned o.id (obsNodeStep g o) o.relatedEntityIds [] e he hn, ?_⟩
    obtain ⟨new, hnew, hprop⟩ := obsLinkAll_edges o.id (obsNodeStep g o) o.relatedEntityIds []
    show (obsLinkAll o.id (obsNodeStep g o) o.relatedEntityIds []).1.edges.filter _ = _
    rw [hnew, edges_obsNodeStep, List.filter_append]
    have hnil : new.filter (fun ed => decide (ed.source = e ∨ ed.target = e)) = [] := by
      rw [List.filter_eq_nil_iff]
      intro ed hed
      obtain ⟨hsrc, htgt⟩ := hprop ed hed
      rw [edges_obsNodeStep] at hnew
      simp only [decide_eq_true_eq, not_or]
      constructor
      · intro hc
        have hoid : hasNode (obsNodeStep g o) o.id = true := hasNode_obsNodeStep g o
        rw [← hsrc, hc] at hoid
        rw [hoid] at hn
        exact absurd hn (by simp)
      · intro hc
        rw [hc] at htgt
        rw [htgt] at hn
        exact absurd hn (by simp)
    rw [hnil, List.append_nil]
  · intro k
    show edgeKeyCount (obsLinkAll o.id (obsNodeStep g o) o.relatedEntityIds []).1 k ≤ _
    refine le_trans (obsLinkAll_keyCount o.id (obsNodeStep g o) o.relatedEntityIds [] k) ?_
    have : edgeKeyCount (obsNodeStep g o) k = edgeKeyCount g k := by
      rw [edgeKeyCount, edgeKeyCount, edges_obsNodeStep]
    rw [this]

/-- Witness for C8: the spec applied to the scenario graph and input, giving
the `o1 → f1` edge, the warning for `missing`, and the untouched edge set
around `missing`. -/
theorem createObservations_spec_witness :
    hasEdge (createObservations obsDemoGraph [obsDemoInput]).graph (obsEdgeKey "o1" "f1") =
      true ∧
    obsWarnMsg "o1" "missing" ∈ (createObservations obsDemoGraph [obsDemoInput]).warnings ∧
    hasNode (createObservations obsDemoGraph [obsDemoInput]).graph "o1" = true := by
  have h := createObservations_spec obsDemoGraph obsDemoInput (by decide)
  exact ⟨h.2.2.1 "f1" (by decide) (by decide),
    (h.2.2.2.1 "missing" (by decide) (by decide)).1, h.1⟩

/-!
`searchNodes` (`KnowledgeGraphManager.searchNodes`, src/server.ts lines
423-439): `filterNodes` over a case-insensitive substring test of the
`name`, `content`, `type`, `identifier` attributes and the `tags` array.
-/

/-- `needle` is a prefix of `hay` (character lists). -/
def charsPrefix : List Char → List Char → Bool
  | [], _ => true
  | _ :: _, [] => false
  | n :: ns, h :: hs => n = h && charsPrefix ns hs

/-- `hay` contains `needle` at some position (first argument is the needle),
the semantics of JavaScript `String.prototype.includes`. -/
def charsContains (needle : List Char) : List Char → Bool
  | [] => charsPrefix needle []
  | c :: t => charsPrefix needle (c :: t) || charsContains needle t

/-- Models `hay.includes(needle)`. -/
def jsIncludes (hay needle : String) : Bool := charsContains needle.data hay.data

/-- Models `s.toLowerCase()` (the same character-wise lowering as
`String.toLower`, stated over the character list so that it evaluates). -/
def strLower (s : String) : String := ⟨s.data.map Char.toLower⟩

/-- Models `field?.toLowerCase().includes(lq)` for one attribute value.
Absent and `null` values are falsy under optional chaining; a string value is
lower-cased and tested.  (A non-string, non-null value would make the JS
expression throw; the C9 theorem's hypothesis restricts to the values the
code can actually process.) -/
def strFieldMatches (v : Option Value) (lq : String) : Bool :=
  match v with
  | some (Value.str s) => jsIncludes (strLower s) lq
  | _ => false

/-- The predicate of `filterNodes` in `searchNodes`: name, content, type,
identifier, then the `tags` array (guarded by `Array.isArray`). -/
def searchMatches (attrs : AttrMap) (lq : String) : Bool :=
  strFieldMatches (getAttr attrs "name") lq ||
  strFieldMatches (getAttr attrs "content") lq ||
  strFieldMatches (getAttr attrs "type") lq ||
  strFieldMatches (getAttr attrs "identifier") lq ||
  (match getAttr attrs "tags" with
   | some (Value.arr ts) => ts.any (fun t => jsIncludes (strLower t) lq)
   | _ => false)

/-- Models `searchNodes(query)`: the matching node keys in graph order, each
paired with its attribute map via `getNodeAttributes`. -/
def searchNodes (g : Graph) (q : String) : List (String × AttrMap) :=
  (g.nodes.filter (fun n => searchMatches n.2 (strLower q))).map
    (fun n => (n.1, nodeAttrsD g n.1))

/-- Modelled from the spec for C9: the claimed matching rule — a
case-insensitive substring hit on the id or the fixed field list, or on any
stringified string/number/boolean attribute value, or on any attribute key. -/
def specSearchMatches (id : String) (attrs : AttrMap) (q : String) : Bool :=
  let lq := strLower q
  jsIncludes (strLower id) lq ||
  strFieldMatches (getAttr attrs "name") lq ||
  strFieldMatches (getAttr attrs "type") lq ||
  strFieldMatches (getAttr attrs "content") lq ||
  (match getAttr attrs "tags" with
   | some (Value.arr ts) => ts.any (fun t => jsIncludes (strLower t) lq)
   | _ => false) ||
  attrs.any (fun kv => jsIncludes (strLower kv.1) lq ||
    (match kv.2 with
     | Value.str s => jsIncludes (strLower s) lq
     | Value.num n => jsIncludes (strLower (toString n)) lq
     | Value.bool b => jsIncludes (strLower (toString b)) lq
     | _ => false))

/-- A node whose only hits for the query `"zebra9"` are its id and a custom
attribute value — places the implemented field list does not look at. -/
def searchDemoGraph : Graph :=
  ⟨[("zebra9", [("type", Value.str "t"), ("name", Value.str "alpha"),
    ("custom", Value.str "zebra9")])], []⟩

/-- C9 counterexample: the claimed rule matches the node (query hits the id
and a stringified attribute value), but `searchNodes` returns nothing — the
implementation only looks at `name`, `content`, `type`, `identifier` and
`tags`, never at the id or the rest of the attribute map. -/
theorem searchNodes_counterexample :
    specSearchMatches "zebra9"
      [("type", Value.str "t"), ("name", Value.str "alpha"),
       ("custom", Value.str "zebra9")] "zebra9" = true ∧
    searchNodes searchDemoGraph "zebra9" = [] := by
  refine ⟨?_, ?_⟩ <;> decide

/-- A searchable-field value the code can process without throwing: absent,
`null`, or a string. -/
def fieldOk : Option Value → Bool
  | none => true
  | some (Value.str _) => true
  | some Value.null => true
  | some _ => false

/-- Every node's `name`/`content`/`type`/`identifier` attributes are absent,
null or strings — the domain on which the JS search predicate is defined. -/
def SearchFieldsOk (g : Graph) : Prop :=
  ∀ n ∈ g.nodes, fieldOk (getAttr n.2 "name") = true ∧
    fieldOk (getAttr n.2 "content") = true ∧ fieldOk (getAttr n.2 "type") = true ∧
    fieldOk (getAttr n.2 "identifier") = true

instance (g : Graph) : Decidable (SearchFieldsOk g) := by
  unfold SearchFieldsOk; infer_instance

theorem lookupNodes_of_mem (l : List (String × AttrMap)) (hn : (l.map Prod.fst).Nodup) :
    ∀ n ∈ l, (l.find? (fun x => x.1 = n.1)).map (·.2) = some n.2 := by
  induction l with
  | nil => intro n h; exact absurd h (List.not_mem_nil n)
  | cons m rest ih =>
    intro n h
    simp only [List.map_cons, List.nodup_cons] at hn
    rcases List.mem_cons.1 h with rfl | htail
    · rw [List.find?_cons_of_pos _ (by simp)]
      rfl
    · have hne : ¬m.1 = n.1 := fun hc =>
        hn.1 (hc ▸ List.mem_map.2 ⟨n, htail, rfl⟩)
      rw [List.find?_cons_of_neg _ (by simpa using hne)]
      exact ih hn.2 n htail

theorem getNodeAttrs_of_mem (g : Graph) (hn : NodeKeysDistinct g) :
    ∀ n ∈ g.nodes, getNodeAttrs g n.1 = some n.2 := fun n h =>
  lookupNodes_of_mem g.nodes hn n h

/-- C9 (amended): `searchNodes(q)` returns exactly the nodes for which the
lower-cased query is a substring of the lower-cased `name`, `content`,
`type` or `identifier` attribute (when present as a string) or of one of the
entries of an array-valued `tags` attribute; the node id and the remaining
attribute keys and values are not consulted. -/
theorem searchNodes_spec (g : Graph) (q : String)
    (_hok : SearchFieldsOk g) (hn : NodeKeysDistinct g) :
    ∀ id attrs, (id, attrs) ∈ searchNodes g q ↔
      ((id, attrs) ∈ g.nodes ∧ searchMatches attrs (strLower q) = true) := by
  intro id attrs
  unfold searchNodes
  rw [List.mem_map]
  constructor
  · rintro ⟨n, hmem, heq⟩
    rw [List.mem_filter] at hmem
    obtain ⟨hmem, hmatch⟩ := hmem
    have hattrs : nodeAttrsD g n.1 = n.2 := by
      rw [nodeAttrsD, getNodeAttrs_of_mem g hn n hmem]
      rfl
    rw [hattrs] at heq
    have h1 : n.1 = id := congrArg Prod.fst heq
    have h2 : n.2 = attrs := congrArg Prod.snd heq
    rw [← h1, ← h2]
    exact ⟨by simpa using hmem, hmatch⟩
  · rintro ⟨hmem, hmatch⟩
    refine ⟨(id, attrs), List.mem_filter.2 ⟨hmem, hmatch⟩, ?_⟩
    rw [nodeAttrsD, getNodeAttrs_of_mem g hn (id, attrs) hmem]
    rfl

/-- Witness for C9: the amended rule evaluated on `searchDemoGraph` — the
query `"alpha"` hits the `name` field of the node, and the node is returned. -/
theorem searchNodes_spec_witness :
    ("zebra9", [("type", Value.str "t"), ("name", Value.str "alpha"),
      ("custom", Value.str "zebra9")]) ∈ searchNodes searchDemoGraph "Alpha" ↔
    (("zebra9", [("type", Value.str "t"), ("name", Value.str "alpha"),
      ("custom", Value.str "zebra9")]) ∈ searchDemoGraph.nodes ∧
      searchMatches [("type", Value.str "t"), ("name", Value.str "alpha"),
        ("custom", Value.str "zebra9")] (strLower "Alpha") = true) :=
  searchNodes_spec searchDemoGraph "Alpha" (by decide) (by decide) "zebra9"
    [("type", Value.str "t"), ("name", Value.str "alpha"), ("custom", Value.str "zebra9")]

/-!
`getNeighborhood` (src/GraphHandler.ts lines 265-327): a hand-rolled BFS over
direction-filtered neighbors with a depth cut-off, followed by collecting the
edges induced on the discovered node set.
-/

/-- Direction-filtered neighbor iteration
(`forEachInNeighbor` / `forEachOutNeighbor` / `forEachNeighbor`): directed
edges feed only their natural direction, any incident edge feeds the `all`
case.  Graphology iterates each distinct neighbor once; this list may repeat
a neighbor, which the visited check of the BFS makes observationally
equivalent. -/
def neighborList (g : Graph) (dir : String) (n : String) : List String :=
  if dir = "inbound" then
    (g.edges.filter (fun e => !e.undirected && e.target = n)).map (·.source)
  else if dir = "outbound" then
    (g.edges.filter (fun e => !e.undirected && e.source = n)).map (·.target)
  else
    g.edges.filterMap (fun e =>
      if e.source = n then some e.target
      else if e.target = n then some e.source else none)

/-- Lookup in the `visitedDepths` map. -/
def visitedLookup (v : List (String × Nat)) (n : String) : Option Nat :=
  (v.find? (fun p => p.1 = n)).map (·.2)

/-- `visitedDepths.set(n, d)`. -/
def depthSet : List (String × Nat) → String → Nat → List (String × Nat)
  | [], n, d => [(n, d)]
  | (m, dm) :: rest, n, d =>
    if m = n then (n, d) :: rest else (m, dm) :: depthSet rest n d

/-- The mutable loop state: `visitedDepths`, the unprocessed tail of the
queue, and `nodesInNeighborhood` in insertion order. -/
structure NbState where
  visited : List (String × Nat)
  queue : List (String × Nat)
  nodesIn : List String
deriving Repr, DecidableEq

/-- The neighbor callback body: requeue when the neighbor is unvisited or was
recorded at a depth greater than `depth + 1`. -/
def processNeighbor (depth : Nat) (st : NbState) (nbr : String) : NbState :=
  let push := match visitedLookup st.visited nbr with
    | none => true
    | some dOld => decide (dOld > depth + 1)
  if push then
    { visited := depthSet st.visited nbr (depth + 1),
      queue := st.queue ++ [(nbr, depth + 1)],
      nodesIn := if st.nodesIn.contains nbr then st.nodesIn else st.nodesIn ++ [nbr] }
  else st

/-- The `while (head < queue.length)` loop, with fuel (the fuel chosen by
`getNeighborhood` is large enough for every run this development reasons
about). -/
def bfsLoop (g : Graph) (dir : String) (maxDepth : Nat) :
    Nat → List (String × Nat) → List (String × Nat) → List String →
    List (String × Nat) × List String
  | 0, _, visited, nodesIn => (visited, nodesIn)
  | _ + 1, [], visited, nodesIn => (visited, nodesIn)
  | fuel + 1, (node, depth) :: rest, visited, nodesIn =>
    if maxDepth ≤ depth then bfsLoop g dir maxDepth fuel rest visited nodesIn
    else
      let st := (neighborList g dir node).foldl (processNeighbor depth)
        ⟨visited, rest, nodesIn⟩
      bfsLoop g dir maxDepth fuel st.queue st.visited st.nodesIn

/-- The relation object pushed for an edge: `{...edgeAttrs}` with the
`undirected` flag written on it (the graph type is `'mixed'`). -/
def relObj (e : Edge) : AttrMap := setAttr e.attrs "undirected" (Value.bool e.undirected)

/-- All edges incident to a node, in graph order (`graph.forEachEdge(node)`). -/
def incidentEdges (g : Graph) (n : String) : List Edge :=
  g.edges.filter (fun e => e.source = n ∨ e.target = n)

/-- Inner edge-collection loop for one node of the neighborhood: keep an
incident edge when both endpoints are in the node set and its key has not
been collected yet. -/
def collectInner (nodesIn : List String) : List Edge → List String → List String × List AttrMap
  | [], seen => (seen, [])
  | e :: es, seen =>
    if (nodesIn.contains e.source && nodesIn.contains e.target) && !seen.contains e.key then
      let r := collectInner nodesIn es (seen ++ [e.key])
      (r.1, relObj e :: r.2)
    else collectInner nodesIn es seen

/-- Outer edge-collection loop over the discovered nodes. -/
def collectRelsAux (g : Graph) (nodesIn : List String) :
    List String → List String → List String × List AttrMap
  | [], seen => (seen, [])
  | n :: ns, seen =>
    let inner := collectInner nodesIn (incidentEdges g n) seen
    let rest := collectRelsAux g nodesIn ns inner.1
    (rest.1, inner.2 ++ rest.2)

/-- The `relations` list `getNeighborhood` returns. -/
def collectRels (g : Graph) (nodesIn : List String) : List AttrMap :=
  (collectRelsAux g nodesIn nodesIn []).2

/-- Models `getNeighborhood(startNodeId, maxDepth, direction)`: `null` for a
missing start node, otherwise the discovered entities (attribute objects) and
the relations induced on the discovered node set. -/
def getNeighborhood (g : Graph) (startNodeId : String) (maxDepth : Nat) (dir : String) :
    Option (List AttrMap × List AttrMap) :=
  if hasNode g startNodeId then
    let fuel := 1 + (maxDepth + 2) * (1 + g.nodes.length + 2 * g.edges.length)
    let r := bfsLoop g dir maxDepth fuel [(startNodeId, 0)] [(startNodeId, 0)] [startNodeId]
    some (r.2.map (fun n => nodeAttrsD g n), collectRels g r.2)
  else none

theorem bfsLoop_drain (g : Graph) (dir : String) (maxDepth : Nat)
    (q : List (String × Nat)) (v : List (String × Nat)) (nin : List String) (fuel : Nat)
    (hq : ∀ p ∈ q, maxDepth ≤ p.2) (hfuel : q.length < fuel) :
    bfsLoop g dir maxDepth fuel q v nin = (v, nin) := by
  induction q generalizing fuel with
  | nil =>
    cases fuel with
    | zero => omega
    | succ f => rfl
  | cons p rest ih =>
    cases fuel with
    | zero => omega
    | succ f =>
      obtain ⟨node, depth⟩ := p
      rw [bfsLoop]
      rw [if_pos (hq (node, depth) (List.mem_cons_self _ _))]
      refine ih f (fun p hp => hq p (List.mem_cons_of_mem _ hp)) ?_
      simp only [List.length_cons] at hfuel
      omega

theorem edge_key_inj (l : List Edge) (h : (l.map Edge.key).Nodup) :
    ∀ a ∈ l, ∀ b ∈ l, a.key = b.key → a = b := by
  induction l with
  | nil => intro a ha; exact absurd ha (List.not_mem_nil a)
  | cons e rest ih =>
    simp only [List.map_cons, List.nodup_cons] at h
    intro a ha b hb hk
    rcases List.mem_cons.1 ha with rfl | ha'
    · rcases List.mem_cons.1 hb with rfl | hb'
      · rfl
      · exact absurd (by rw [hk]; exact List.mem_map.2 ⟨b, hb', rfl⟩) h.1
    · rcases List.mem_cons.1 hb with rfl | hb'
      · exact absurd (by rw [← hk]; exact List.mem_map.2 ⟨a, ha', rfl⟩) h.1
      · exact ih h.2 a ha' b hb' hk

theorem collectInner_eq (nodesIn : List String) (es : List Edge) (seen : List String)
    (hd : (es.map Edge.key).Nodup) (hs : ∀ e ∈ es, e.key ∉ seen) :
    (collectInner nodesIn es seen).2 =
      (es.filter (fun e => nodesIn.contains e.source && nodesIn.contains e.target)).map
        relObj := by
  induction es generalizing seen with
  | nil => rfl
  | cons e rest ih =>
    simp only [List.map_cons, List.nodup_cons] at hd
    have hcont : seen.contains e.key = false := by
      simpa using hs e (List.mem_cons_self _ _)
    rw [collectInner, List.filter_cons]
    by_cases hp : (nodesIn.contains e.source && nodesIn.contains e.target) = true
    · rw [hp, hcont]
      simp only [Bool.not_false, Bool.and_true, if_true, List.map_cons]
      exact congrArg (relObj e :: ·)
        (ih (seen ++ [e.key]) hd.2 (fun e' he' => by
          rw [List.mem_append, List.mem_singleton]
          rintro (hin | hkey)
          · exact hs e' (List.mem_cons_of_mem _ he') hin
          · exact hd.1 (hkey ▸ List.mem_map.2 ⟨e', he', rfl⟩)))
    · have hp' : (nodesIn.contains e.source && nodesIn.contains e.target) = false := by
        simpa using hp
      rw [hp']
      simp only [Bool.false_and, Bool.false_eq_true, if_false]
      exact ih seen hd.2 (fun e' he' => hs e' (List.mem_cons_of_mem _ he'))

theorem collectRels_single (g : Graph) (X : String) (he : EdgeKeysDistinct g) :
    collectRels g [X] =
      (g.edges.filter (fun e => e.source = X ∧ e.target = X)).map relObj := by
  have hnodup : ((incidentEdges g X).map Edge.key).Nodup :=
    ((List.filter_sublist _).map Edge.key).nodup he
  rw [collectRels]
  simp only [collectRelsAux]
  rw [collectInner_eq [X] (incidentEdges g X) [] hnodup (fun e _ => List.not_mem_nil _)]
  rw [List.append_nil, incidentEdges, List.filter_filter]
  congr 1
  apply List.filter_congr
  intro e _
  by_cases hsrc : e.source = X <;> by_cases htgt : e.target = X <;>
    simp [hsrc, htgt, List.contains]

theorem visitedLookup_cons (p : String × Nat) (v : List (String × Nat)) (m : String) :
    visitedLookup (p :: v) m = if p.1 = m then some p.2 else visitedLookup v m := by
  simp only [visitedLookup, List.find?]
  by_cases h : p.1 = m <;> simp [h]

theorem visitedLookup_depthSet (v : List (String × Nat)) (n : String) (d : Nat) (m : String) :
    visitedLookup (depthSet v n d) m = if n = m then some d else visitedLookup v m := by
  induction v with
  | nil => simp [depthSet, visitedLookup_cons, visitedLookup]
  | cons p rest ih =>
    obtain ⟨pn, pd⟩ := p
    rw [depthSet]
    by_cases h1 : pn = n
    · rw [if_pos h1]
      subst h1
      rw [visitedLookup_cons, visitedLookup_cons]
      by_cases h2 : pn = m <;> simp [h2]
    · rw [if_neg h1, visitedLookup_cons, ih, visitedLookup_cons]
      by_cases h2 : pn = m
      · subst h2
        have h3 : ¬n = pn := fun hc => h1 hc.symm
        simp [h3]
      · simp [h2]

theorem processNeighbor_nodesIn_mono (d : Nat) (st : NbState) (nbr y : String)
    (h : y ∈ st.nodesIn) : y ∈ (processNeighbor d st nbr).nodesIn := by
  rw [processNeighbor]
  by_cases hpush : (match visitedLookup st.visited nbr with
    | none => true
    | some dOld => decide (dOld > d + 1)) = true
  · rw [if_pos hpush]
    by_cases hc : st.nodesIn.contains nbr = true
    · simp only [hc, if_true]
      exact h
    · simp only [hc, Bool.false_eq_true, if_false]
      exact List.mem_append_left _ h
  · rw [if_neg hpush]
    exact h

theorem processNeighbor_nodesIn_subset (d : Nat) (st : NbState) (nbr y : String)
    (h : y ∈ (processNeighbor d st nbr).nodesIn) : y ∈ st.nodesIn ∨ y = nbr := by
  rw [processNeighbor] at h
  by_cases hpush : (match visitedLookup st.visited nbr with
    | none => true
    | some dOld => decide (dOld > d + 1)) = true
  · rw [if_pos hpush] at h
    by_cases hc : st.nodesIn.contains nbr = true
    · simp only [hc, if_true] at h
      exact Or.inl h
    · simp only [hc, Bool.false_eq_true, if_false] at h
      rcases List.mem_append.1 h with h | h
      · exact Or.inl h
      · exact Or.inr (List.mem_singleton.1 h)
  · rw [if_neg hpush] at h
    exact Or.inl h

/-- The BFS bookkeeping invariant: every node recorded in `visitedDepths` is
already in `nodesInNeighborhood`. -/
def NbInv (st : NbState) : Prop :=
  ∀ n dv, visitedLookup st.visited n = some dv → n ∈ st.nodesIn

theorem mem_nodesIn_processNeighbor_self (d : Nat) (st : NbState) (nbr : String)
    (hpush : (match visitedLookup st.visited nbr with
      | none => true
      | some dOld => decide (dOld > d + 1)) = true) :
    nbr ∈ (processNeighbor d st nbr).nodesIn := by
  rw [processNeighbor, if_pos hpush]
  by_cases hc : st.nodesIn.contains nbr = true
  · simp only [hc, if_true]
    simpa using hc
  · simp only [hc, Bool.false_eq_true, if_false]
    exact List.mem_append_right _ (List.mem_singleton.2 rfl)

theorem processNeighbor_inv (d : Nat) (st : NbState) (nbr : String)
    (h : NbInv st) : NbInv (processNeighbor d st nbr) := by
  by_cases hpush : (match visitedLookup st.visited nbr with
    | none => true
    | some dOld => decide (dOld > d + 1)) = true
  · intro n dv hl
    rw [processNeighbor, if_pos hpush] at hl ⊢
    simp only at hl
    rw [visitedLookup_depthSet] at hl
    by_cases hn : nbr = n
    · subst hn
      have := mem_nodesIn_processNeighbor_self d st nbr hpush
      rwa [processNeighbor, if_pos hpush] at this
    · rw [if_neg hn] at hl
      have hmem := h n dv hl
      by_cases hc : st.nodesIn.contains nbr = true
      · rw [if_pos hc]
        exact hmem
      · simp only [hc, Bool.false_eq_true, if_false]
        exact List.mem_append_left _ hmem
  · intro n dv hl
    rw [processNeighbor, if_neg hpush] at hl ⊢
    exact h n dv hl

theorem foldl_processNeighbor_nodesIn_mono (d : Nat) (nbrs : List String) (st : NbState)
    (y : String) (h : y ∈ st.nodesIn) :
    y ∈ (nbrs.foldl (processNeighbor d) st).nodesIn := by
  induction nbrs generalizing st with
  | nil => exact h
  | cons n rest ih =>
    exact ih (processNeighbor d st n) (processNeighbor_nodesIn_mono d st n y h)

theorem foldl_processNeighbor_nodesIn_subset (d : Nat) (nbrs : List String) (st : NbState)
    (y : String) (h : y ∈ (nbrs.foldl (processNeighbor d) st).nodesIn) :
    y ∈ st.nodesIn ∨ y ∈ nbrs := by
  induction nbrs generalizing st with
  | nil => exact Or.inl h
  | cons n rest ih =>
    rcases ih (processNeighbor d st n) h with h' | h'
    · rcases processNeighbor_nodesIn_subset d st n y h' with h'' | rfl
      · exact Or.inl h''
      · exact Or.inr (List.mem_cons_self _ _)
    · exact Or.inr (List.mem_cons_of_mem _ h')

theorem foldl_processNeighbor_inv (d : Nat) (nbrs : List String) (st : NbState)
    (h : NbInv st) : NbInv (nbrs.foldl (processNeighbor d) st) := by
  induction nbrs generalizing st with
  | nil => exact h
  | cons n rest ih =>
    exact ih (processNeighbor d st n) (processNeighbor_inv d st n h)

theorem foldl_processNeighbor_complete (d : Nat) (nbrs : List String) (st : NbState)
    (hinv : NbInv st) :
    ∀ nbr ∈ nbrs, nbr ∈ (nbrs.foldl (processNeighbor d) st).nodesIn := by
  induction nbrs generalizing st with
  | nil => intro nbr h; exact absurd h (List.not_mem_nil nbr)
  | cons n rest ih =>
    intro nbr hmem
    rcases List.mem_cons.1 hmem with rfl | htail
    · refine foldl_processNeighbor_nodesIn_mono d rest (processNeighbor d st nbr) nbr ?_
      by_cases hpush : (match visitedLookup st.visited nbr with
        | none => true
        | some dOld => decide (dOld > d + 1)) = true
      · exact mem_nodesIn_processNeighbor_self d st nbr hpush
      · rw [processNeighbor, if_neg hpush]
        cases hl : visitedLookup st.visited nbr with
        | none => rw [hl] at hpush; exact absurd rfl hpush
        | some dOld => exact hinv nbr dOld hl
    · exact ih (processNeighbor d st n) (processNeighbor_inv d st n hinv) nbr htail

theorem processNeighbor_queue (d : Nat) (st : NbState) (nbr : String) :
    ∀ p ∈ (processNeighbor d st nbr).queue, p ∈ st.queue ∨ p.2 = d + 1 := by
  rw [processNeighbor]
  by_cases hpush : (match visitedLookup st.visited nbr with
    | none => true
    | some dOld => decide (dOld > d + 1)) = true
  · rw [if_pos hpush]
    intro p hp
    rcases List.mem_append.1 hp with hp | hp
    · exact Or.inl hp
    · rw [List.mem_singleton.1 hp]
      exact Or.inr rfl
  · rw [if_neg hpush]
    exact fun p hp => Or.inl hp

theorem foldl_processNeighbor_queue (d : Nat) (nbrs : List String) (st : NbState) :
    ∀ p ∈ (nbrs.foldl (processNeighbor d) st).queue, p ∈ st.queue ∨ p.2 = d + 1 := by
  induction nbrs generalizing st with
  | nil => exact fun p hp => Or.inl hp
  | cons n rest ih =>
    intro p hp
    rcases ih (processNeighbor d st n) p hp with h | h
    · exact processNeighbor_queue d st n p h
    · exact Or.inr h

theorem processNeighbor_queue_len (d : Nat) (st : NbState) (nbr : String) :
    (processNeighbor d st nbr).queue.length ≤ st.queue.length + 1 := by
  rw [processNeighbor]
  by_cases hpush : (match visitedLookup st.visited nbr with
    | none => true
    | some dOld => decide (dOld > d + 1)) = true
  · rw [if_pos hpush]
    simp
  · rw [if_neg hpush]
    omega

theorem foldl_processNeighbor_queue_len (d : Nat) (nbrs : List String) (st : NbState) :
    (nbrs.foldl (processNeighbor d) st).queue.length ≤ st.queue.length + nbrs.length := by
  induction nbrs generalizing st with
  | nil => simp
  | cons n rest ih =>
    calc (rest.foldl (processNeighbor d) (processNeighbor d st n)).queue.length ≤
        (processNeighbor d st n).queue.length + rest.length := ih _
    _ ≤ st.queue.length + 1 + rest.length := by
        have := processNeighbor_queue_len d st n
        omega
    _ = st.queue.length + (n :: rest).length := by
        simp only [List.length_cons]
        omega

theorem neighborList_length_le (g : Graph) (dir : String) (n : String) :
    (neighborList g dir n).length ≤ g.edges.length := by
  rw [neighborList]
  by_cases h1 : dir = "inbound"
  · rw [if_pos h1, List.length_map]
    exact List.length_filter_le _ _
  · rw [if_neg h1]
    by_cases h2 : dir = "outbound"
    · rw [if_pos h2, List.length_map]
      exact List.length_filter_le _ _
    · rw [if_neg h2]
      exact List.length_filterMap_le _ _

theorem collectInner_sound (nodesIn : List String) (es : List Edge) (seen : List String) :
    ∀ r ∈ (collectInner nodesIn es seen).2, ∃ e ∈ es,
      nodesIn.contains e.source = true ∧ nodesIn.contains e.target = true ∧ r = relObj e := by
  induction es generalizing seen with
  | nil => intro r hr; exact absurd hr (List.not_mem_nil r)
  | cons e0 es ih =>
    intro r hr
    rw [collectInner] at hr
    by_cases hcond : ((nodesIn.contains e0.source && nodesIn.contains e0.target) &&
        !seen.contains e0.key) = true
    · rw [if_pos hcond] at hr
      simp only [Bool.and_eq_true] at hcond
      rcases List.mem_cons.1 hr with rfl | hr
      · exact ⟨e0, List.mem_cons_self _ _, hcond.1.1, hcond.1.2, rfl⟩
      · obtain ⟨e, he, h1, h2, h3⟩ := ih (seen ++ [e0.key]) r hr
        exact ⟨e, List.mem_cons_of_mem _ he, h1, h2, h3⟩
    · rw [if_neg hcond] at hr
      obtain ⟨e, he, h1, h2, h3⟩ := ih seen r hr
      exact ⟨e, List.mem_cons_of_mem _ he, h1, h2, h3⟩

theorem collectInner_complete (nodesIn : List String) (es : List Edge) (seen : List String)
    (hd : (es.map Edge.key).Nodup) :
    ∀ e ∈ es, nodesIn.contains e.source = true → nodesIn.contains e.target = true →
      relObj e ∈ (collectInner nodesIn es seen).2 ∨ e.key ∈ seen := by
  induction es generalizing seen with
  | nil => intro e he; exact absurd he (List.not_mem_nil e)
  | cons e0 es ih =>
    simp only [List.map_cons, List.nodup_cons] at hd
    intro e he hcs hct
    rw [collectInner]
    rcases List.mem_cons.1 he with rfl | htail
    · by_cases hseen : e.key ∈ seen
      · exact Or.inr hseen
      · have hcond : ((nodesIn.contains e.source && nodesIn.contains e.target) &&
            !seen.contains e.key) = true := by
          rw [hcs, hct]
          simpa using hseen
        rw [if_pos hcond]
        exact Or.inl (List.mem_cons_self _ _)
    · by_cases hcond : ((nodesIn.contains e0.source && nodesIn.contains e0.target) &&
          !seen.contains e0.key) = true
      · rw [if_pos hcond]
        rcases ih (seen ++ [e0.key]) hd.2 e htail hcs hct with h | h
        · exact Or.inl (List.mem_cons_of_mem _ h)
        · rcases List.mem_append.1 h with h | h
          · exact Or.inr h
          · rw [List.mem_singleton] at h
            exact absurd (h ▸ List.mem_map.2 ⟨e, htail, rfl⟩) hd.1
      · rw [if_neg hcond]
        exact ih seen hd.2 e htail hcs hct

theorem collectInner_seen (nodesIn : List String) (es : List Edge) (seen : List String) :
    ∀ k ∈ (collectInner nodesIn es seen).1, k ∈ seen ∨
      ∃ e ∈ es, e.key = k ∧ relObj e ∈ (collectInner nodesIn es seen).2 := by
  induction es generalizing seen with
  | nil => intro k hk; exact Or.inl hk
  | cons e0 es ih =>
    intro k hk
    rw [collectInner] at hk ⊢
    by_cases hcond : ((nodesIn.contains e0.source && nodesIn.contains e0.target) &&
        !seen.contains e0.key) = true
    · rw [if_pos hcond] at hk ⊢
      rcases ih (seen ++ [e0.key]) k hk with h | ⟨e, he, h1, h2⟩
      · rcases List.mem_append.1 h with h | h
        · exact Or.inl h
        · rw [List.mem_singleton] at h
          exact Or.inr ⟨e0, List.mem_cons_self _ _, h.symm, List.mem_cons_self _ _⟩
      · exact Or.inr ⟨e, List.mem_cons_of_mem _ he, h1, List.mem_cons_of_mem _ h2⟩
    · rw [if_neg hcond] at hk ⊢
      rcases ih seen k hk with h | ⟨e, he, h1, h2⟩
      · exact Or.inl h
      · exact Or.inr ⟨e, List.mem_cons_of_mem _ he, h1, h2⟩

theorem collectRelsAux_sound (g : Graph) (nodesIn : List String) (ms seen : List String) :
    ∀ r ∈ (collectRelsAux g nodesIn ms seen).2, ∃ e ∈ g.edges,
      nodesIn.contains e.source = true ∧ nodesIn.contains e.target = true ∧ r = relObj e := by
  induction ms generalizing seen with
  | nil => intro r hr; exact absurd hr (List.not_mem_nil r)
  | cons n ns ih =>
    intro r hr
    rw [collectRelsAux] at hr
    rcases List.mem_append.1 hr with hr | hr
    · obtain ⟨e, he, h1, h2, h3⟩ := collectInner_sound nodesIn (incidentEdges g n) seen r hr
      exact ⟨e, List.mem_of_mem_filter he, h1, h2, h3⟩
    · exact ih _ r hr

theorem incidentEdges_keys_nodup (g : Graph) (n : String) (hd : EdgeKeysDistinct g) :
    ((incidentEdges g n).map Edge.key).Nodup :=
  ((List.filter_sublist _).map Edge.key).nodup hd

theorem collectRelsAux_complete (g : Graph) (nodesIn : List String) (ms seen : List String)
    (hd : EdgeKeysDistinct g) :
    ∀ e ∈ g.edges, nodesIn.contains e.source = true → nodesIn.contains e.target = true →
      (∃ n ∈ ms, e.source = n ∨ e.target = n) →
      relObj e ∈ (collectRelsAux g nodesIn ms seen).2 ∨ e.key ∈ seen := by
  induction ms generalizing seen with
  | nil =>
    rintro e he hcs hct ⟨n, hn, -⟩
    exact absurd hn (List.not_mem_nil n)
  | cons n ns ih =>
    rintro e he hcs hct ⟨n', hn', hinc⟩
    rw [collectRelsAux]
    rcases List.mem_cons.1 hn' with rfl | htail
    · have hmem : e ∈ incidentEdges g n' := by
        rw [incidentEdges, List.mem_filter]
        exact ⟨he, by simpa using hinc⟩
      rcases collectInner_complete nodesIn (incidentEdges g n') seen
          (incidentEdges_keys_nodup g n' hd) e hmem hcs hct with h | h
      · exact Or.inl (List.mem_append_left _ h)
      · exact Or.inr h
    · rcases ih (collectInner nodesIn (incidentEdges g n) seen).1 e he hcs hct
          ⟨n', htail, hinc⟩ with h | h
      · exact Or.inl (List.mem_append_right _ h)
      · rcases collectInner_seen nodesIn (incidentEdges g n) seen e.key h with h' | ⟨e', he', h1, h2⟩
        · exact Or.inr h'
        · have : e' = e := edge_key_inj g.edges hd e' (List.mem_of_mem_filter he') e he h1
          rw [this] at h2
          exact Or.inl (List.mem_append_left _ h2)

theorem collectRels_mem_iff (g : Graph) (nodesIn : List String) (hd : EdgeKeysDistinct g) :
    ∀ r, r ∈ collectRels g nodesIn ↔
      ∃ e ∈ g.edges, e.source ∈ nodesIn ∧ e.target ∈ nodesIn ∧ r = relObj e := by
  intro r
  rw [collectRels]
  constructor
  · intro hr
    obtain ⟨e, he, h1, h2, h3⟩ := collectRelsAux_sound g nodesIn nodesIn [] r hr
    exact ⟨e, he, by simpa using h1, by simpa using h2, h3⟩
  · rintro ⟨e, he, h1, h2, rfl⟩
    rcases collectRelsAux_complete g nodesIn nodesIn [] hd e he (by simpa using h1)
        (by simpa using h2) ⟨e.source, h1, Or.inl rfl⟩ with h | h
    · exact h
    · exact absurd h (List.not_mem_nil _)

/-- Single node with a self-loop: the C6 counterexample graph. -/
def loopDemoGraph : Graph :=
  ⟨[("X", [("type", Value.str "t")])],
   [⟨"loop", "X", "X", [("type", Value.str "self")], false⟩]⟩

/-- C6 counterexample: with a self-loop on `X`, `getNeighborhood(X, 0, d)`
returns the self-loop relation, not an empty edge set — the edge-collection
pass keeps every edge whose both endpoints are in the discovered set, and at
depth 0 that set is `{X}`, so self-loops at `X` qualify. -/
theorem getNeighborhood_counterexample :
    getNeighborhood loopDemoGraph "X" 0 "outbound" =
      some ([[("type", Value.str "t")]],
        [[("type", Value.str "self"), ("undirected", Value.bool false)]]) ∧
    ¬getNeighborhood loopDemoGraph "X" 0 "outbound" =
      some ([[("type", Value.str "t")]], []) := by
  refine ⟨?_, ?_⟩ <;> decide

/-- C6 (amended): for a start node `X` present in the graph,
`getNeighborhood(X, 0, d)` returns exactly the node `X` together with
precisely the self-loop edges at `X` (so the edge set is empty iff `X` has no
self-loop), and `getNeighborhood(X, 1, "outbound")` returns a node set
consisting of `X` plus exactly its direct out-neighbors (targets of directed
edges leaving `X`; nodes already discovered are not requeued, so the node set
has no duplicates to traverse) and exactly the edges whose both endpoints lie
in that node set. -/
theorem getNeighborhood_spec (g : Graph) (X : String) (dir : String)
    (hx : hasNode g X = true) (he : EdgeKeysDistinct g) :
    getNeighborhood g X 0 dir =
      some ([nodeAttrsD g X],
        (g.edges.filter (fun e => e.source = X ∧ e.target = X)).map relObj) ∧
    ∃ ns : List String,
      getNeighborhood g X 1 "outbound" =
        some (ns.map (fun n => nodeAttrsD g n), collectRels g ns) ∧
      (∀ y, y ∈ ns ↔ y = X ∨ y ∈ neighborList g "outbound" X) ∧
      (∀ r, r ∈ collectRels g ns ↔
        ∃ e ∈ g.edges, e.source ∈ ns ∧ e.target ∈ ns ∧ r = relObj e) := by
  constructor
  · have h0 : bfsLoop g dir 0 (1 + (0 + 2) * (1 + g.nodes.length + 2 * g.edges.length))
        [(X, 0)] [(X, 0)] [X] = ([(X, 0)], [X]) := by
      apply bfsLoop_drain
      · intro p _
        exact Nat.zero_le _
      · simp only [List.length_cons, List.length_nil]
        omega
    rw [getNeighborhood, if_pos hx]
    simp only [h0]
    rw [collectRels_single g X he]
    rfl
  · have hq := foldl_processNeighbor_queue 0 (neighborList g "outbound" X)
      ⟨[(X, 0)], [], [X]⟩
    have hlen := foldl_processNeighbor_queue_len 0 (neighborList g "outbound" X)
      ⟨[(X, 0)], [], [X]⟩
    have hnb := neighborList_length_le g "outbound" X
    have hfuel_eq : 1 + (1 + 2) * (1 + g.nodes.length + 2 * g.edges.length) =
        ((1 + 2) * (1 + g.nodes.length + 2 * g.edges.length)) + 1 := by omega
    have h1 : bfsLoop g "outbound" 1
        (1 + (1 + 2) * (1 + g.nodes.length + 2 * g.edges.length)) [(X, 0)] [(X, 0)] [X] =
        (((neighborList g "outbound" X).foldl (processNeighbor 0)
            ⟨[(X, 0)], [], [X]⟩).visited,
         ((neighborList g "outbound" X).foldl (processNeighbor 0)
            ⟨[(X, 0)], [], [X]⟩).nodesIn) := by
      rw [hfuel_eq, bfsLoop]
      rw [if_neg (by omega : ¬(1 : Nat) ≤ 0)]
      apply bfsLoop_drain
      · intro p hp
        rcases hq p hp with h | h
        · exact absurd h (List.not_mem_nil p)
        · omega
      · simp only [List.length_nil] at hlen
        omega
    have hinv : NbInv ⟨[(X, 0)], [], [X]⟩ := by
      intro n dv hl
      rw [visitedLookup_cons] at hl
      by_cases hxn : X = n
      · rw [← hxn]
        exact List.mem_singleton.2 rfl
      · rw [if_neg (by simpa using hxn)] at hl
        exact absurd hl (by simp [visitedLookup])
    refine ⟨((neighborList g "outbound" X).foldl (processNeighbor 0)
        ⟨[(X, 0)], [], [X]⟩).nodesIn, ?_, ?_,
      collectRels_mem_iff g _ he⟩
    · rw [getNeighborhood, if_pos hx]
      simp only [h1]
    · intro y
      constructor
      · intro hy
        rcases foldl_processNeighbor_nodesIn_subset 0 (neighborList g "outbound" X)
            ⟨[(X, 0)], [], [X]⟩ y hy with h | h
        · exact Or.inl (by simpa using h)
        · exact Or.inr h
      · rintro (rfl | h)
        · exact foldl_processNeighbor_nodesIn_mono 0 _ _ y (by simp)
        · exact foldl_processNeighbor_complete 0 _ _ hinv y h

/-- Witness for C6: the amended depth-0 description evaluated on the
self-loop graph. -/
theorem getNeighborhood_spec_witness :
    getNeighborhood loopDemoGraph "X" 0 "outbound" =
      some ([nodeAttrsD loopDemoGraph "X"],
        (loopDemoGraph.edges.filter
          (fun e => e.source = "X" ∧ e.target = "X")).map relObj) :=
  (getNeighborhood_spec loopDemoGraph "X" "outbound" (by decide) (by decide)).1

/-!
`queryGraphAdvanced` (src/graphologyManager.ts lines 366-545) with its
condition helper `checkConditions` (lines 12-26).  The two library calls are
modelled by their documented semantics: `bfsFromNode`
(graphology-traversal) as a breadth-first visit with a per-node callback
whose `true` return prunes expansion, and `dijkstra.bidirectional`
(graphology-shortest-path) as a minimum-total-weight path (directed edges
followed forward, undirected edges both ways, the cheapest parallel edge
counted), `null` when the target is unreachable.
-/

/-- One attribute condition of the advanced query (`attribute` in the source
is spelled `attr` here: `attribute` is a Lean keyword). -/
structure Condition where
  attr : String
  operator : String
  value : Value
deriving Repr, DecidableEq

/-- Models `checkConditions` (lines 12-26): every condition must hold; only
the `equals` operator is implemented, all others evaluate to `false`. -/
def checkConditions (attrs : AttrMap) (conds : Option (List Condition)) : Bool :=
  match conds with
  | none => true
  | some cs =>
    if cs.isEmpty then true
    else cs.all (fun c =>
      if c.operator = "equals" then
        match getAttr attrs c.attr with
        | some v => v = c.value
        | none => false
      else false)

/-- The `traversal_options` object. -/
structure TraversalOptions where
  algorithm : Option String
  max_depth : Option Nat
  direction : Option String
  edge_types_filter : Option (List String)
deriving Repr, DecidableEq

/-- The `result_options` object. -/
structure ResultOptions where
  composition : Option String
deriving Repr, DecidableEq

/-- The advanced-query input.  `getEdgeWeight` is the name of the weight
attribute (`undefined`, i.e. `none`, selects the default `"weight"`); the
function- and `null`-valued variants of that field cannot arrive through the
tool schema and are not modelled. -/
structure QueryInput where
  query_type : String
  start_node_ids : Option (List String)
  target_node_id : Option String
  traversal_options : Option TraversalOptions
  node_conditions : Option (List Condition)
  edge_conditions : Option (List Condition)
  result_options : Option ResultOptions
  getEdgeWeight : Option String
deriving Repr, DecidableEq

/-- A node of the result payload (`{id, attributes}`). -/
structure NodeOut where
  id : String
  attributes : AttrMap
deriving Repr, DecidableEq

/-- An edge of the result payload (`{id, source, target, attributes}`). -/
structure EdgeOut where
  id : String
  source : String
  target : String
  attributes : AttrMap
deriving Repr, DecidableEq

/-- A path of the result payload (`{nodes, edges, cost}`). -/
structure PathOut where
  nodes : List NodeOut
  edges : List EdgeOut
  cost : Int
deriving Repr, DecidableEq

/-- The advanced-query output object.  `none` in an outer `Option` models a
field deleted by the composition step; `path = some none` models the field
present with value `null`. -/
structure QueryOutput where
  query_type : String
  nodes : Option (List NodeOut)
  edges : Option (List EdgeOut)
  paths : Option (List PathOut)
  path : Option (Option PathOut)
  error : Option String
deriving Repr, DecidableEq

/-- The initial output object of `queryGraphAdvanced` (lines 372-379). -/
def initOutput (qt : String) : QueryOutput :=
  ⟨qt, some [], some [], some [], some none, none⟩

/-- The `catch` block (lines 496-503): record the message, empty all
collections, null the path. -/
def errOut (qt : String) (msg : String) : QueryOutput :=
  ⟨qt, some [], some [], some [], some none, some msg⟩

/-- Edge iteration of the traversal callback by direction
(`forEachOutEdge` / `forEachInEdge` / `forEachEdge`). -/
def dirEdges (g : Graph) (direction : String) (n : String) : List Edge :=
  if direction = "outgoing" then g.edges.filter (fun e => !e.undirected && e.source = n)
  else if direction = "incoming" then g.edges.filter (fun e => !e.undirected && e.target = n)
  else incidentEdges g n

/-- The collection state of the traversal callback. -/
structure TravAcc where
  visitedNodes : List String
  collectedNodes : List NodeOut
  collectedEdges : List EdgeOut
  collectedKeys : List String
deriving Repr, DecidableEq

/-- The traversal callback (lines 407-446): collect the node when new and
passing the node conditions, then collect each direction-filtered incident
edge passing the type filter, the edge conditions and the endpoint node
conditions; prune (`return true`) past `maxDepth`. -/
def travVisit (g : Graph) (direction : String) (maxDepth : Nat)
    (nconds econds : Option (List Condition)) (etf : Option (List String))
    (acc : TravAcc) (nodeId : String) (depth : Nat) : TravAcc × Bool :=
  if maxDepth < depth then (acc, true)
  else
    let nodeAttrs := nodeAttrsD g nodeId
    let acc :=
      if !acc.visitedNodes.contains nodeId && checkConditions nodeAttrs nconds then
        { acc with collectedNodes := acc.collectedNodes ++ [⟨nodeId, nodeAttrs⟩],
                   visitedNodes := acc.visitedNodes ++ [nodeId] }
      else acc
    let acc := (dirEdges g direction nodeId).foldl (fun acc e =>
      let passType := match etf with
        | none => true
        | some fs => match getAttr e.attrs "type" with
          | some (Value.str t) => fs.contains t
          | _ => false
      if !passType then acc
      else if !acc.collectedKeys.contains e.key && checkConditions e.attrs econds then
        let neighbor := if e.source = nodeId then e.target else e.source
        if checkConditions nodeAttrs nconds &&
            checkConditions (nodeAttrsD g neighbor) nconds then
          { acc with collectedEdges := acc.collectedEdges ++ [⟨e.key, e.source, e.target, e.attrs⟩],
                     collectedKeys := acc.collectedKeys ++ [e.key] }
        else acc
      else acc) acc
    (acc, false)

/-- Neighbors the library BFS expands along, by traversal mode. -/
def travNeighbors (g : Graph) (direction : String) (n : String) : List String :=
  (dirEdges g direction n).map (fun e => if e.source = n then e.target else e.source)

/-- The library breadth-first loop (fuelled; the fuel chosen below is
irrelevant to every property proved here): pop, visit, and unless pruned
enqueue the unseen neighbors one level deeper. -/
def travBfs (g : Graph) (direction : String) (maxDepth : Nat)
    (nconds econds : Option (List Condition)) (etf : Option (List String)) :
    Nat → List (String × Nat) → List String → TravAcc → TravAcc
  | 0, _, _, acc => acc
  | _ + 1, [], _, acc => acc
  | fuel + 1, (n, d) :: rest, seen, acc =>
    let vb := travVisit g direction maxDepth nconds econds etf acc n d
    if vb.2 then travBfs g direction maxDepth nconds econds etf fuel rest seen vb.1
    else
      let nbrs := (travNeighbors g direction n).filter (fun m => !seen.contains m)
      travBfs g direction maxDepth nconds econds etf fuel
        (rest ++ nbrs.map (fun m => (m, d + 1))) (seen ++ nbrs) vb.1

/-- Successors for the shortest-path search: directed edges forward,
undirected edges both ways. -/
def nextNodes (g : Graph) (n : String) : List String :=
  g.edges.filterMap (fun e =>
    if e.source = n then some e.target
    else if e.undirected && e.target = n then some e.source
    else none)

/-- All simple directed paths from `cur` to `t` (bounded by fuel). -/
def simplePathsAux (g : Graph) (t : String) : Nat → String → List String → List (List String)
  | 0, cur, _ => if cur = t then [[cur]] else []
  | fuel + 1, cur, visited =>
    if cur = t then [[cur]]
    else
      ((nextNodes g cur).filter (fun m => !visited.contains m)).flatMap
        (fun m => (simplePathsAux g t fuel m (cur :: visited)).map (fun p => cur :: p))

/-- All simple paths from `s` to `t`. -/
def simplePaths (g : Graph) (s t : String) : List (List String) :=
  simplePathsAux g t (g.nodes.length + 1) s []

/-- The weight getter built on line 466:
`edgeAttrs[input.getEdgeWeight || 'weight'] || 1` — a numeric attribute is
used unless it is `0` (JavaScript falsiness), anything else falls back
to `1`.  (A non-numeric truthy weight would poison the arithmetic in JS and
is outside the modelled domain.) -/
def edgeWeightAttr (wname : String) (attrs : AttrMap) : Int :=
  match getAttr attrs wname with
  | some (Value.num n) => if n = 0 then 1 else n
  | _ => 1

/-- The edges usable from `a` to `b` in one step. -/
def stepEdges (g : Graph) (a b : String) : List Edge :=
  g.edges.filter (fun e =>
    (e.source = a && e.target = b) || (e.undirected && e.source = b && e.target = a))

/-- Total weight of a node path: cheapest connecting edge per step. -/
def pathCost (g : Graph) (w : AttrMap → Int) : List String → Option Int
  | [] => some 0
  | [_] => some 0
  | a :: b :: rest =>
    match ((stepEdges g a b).map (fun e => w e.attrs)).min?, pathCost g w (b :: rest) with
    | some m, some c => some (m + c)
    | _, _ => none

/-- Minimum-cost candidate (earlier candidate wins ties). -/
def pickMin : List (List String × Int) → Option (List String × Int)
  | [] => none
  | p :: rest =>
    match pickMin rest with
    | none => some p
    | some q => if q.2 < p.2 then some q else some p

/-- Models `dijkstra.bidirectional(graph, source, target, getEdgeWeight)`:
some minimum-total-weight path, `null` when unreachable. -/
def dijkstraBidirectional (g : Graph) (s t : String) (w : AttrMap → Int) :
    Option (List String) :=
  (pickMin ((simplePaths g s t).filterMap
    (fun p => (pathCost g w p).map (fun c => (p, c))))).map (·.1)

/-- Models `edgePathFromNodePath`: one connecting edge per consecutive pair. -/
def edgePathFromNodePath (g : Graph) : List String → List Edge
  | [] => []
  | [_] => []
  | a :: b :: rest =>
    match (stepEdges g a b).head? with
    | some e => e :: edgePathFromNodePath g (b :: rest)
    | none => edgePathFromNodePath g (b :: rest)

/-- The `try` body of `queryGraphAdvanced` (lines 381-494), before the
composition step. -/
def queryTryBody (g : Graph) (input : QueryInput) : QueryOutput :=
  if input.query_type = "traversal" then
    match input.start_node_ids with
    | none => errOut input.query_type "Missing start_node_ids for traversal query."
    | some starts =>
      if starts.isEmpty then
        errOut input.query_type "Missing start_node_ids for traversal query."
      else
        let algorithm := (input.traversal_options.bind TraversalOptions.algorithm).getD "bfs"
        let maxDepth := (input.traversal_options.bind TraversalOptions.max_depth).getD 3
        let direction := (input.traversal_options.bind TraversalOptions.direction).getD "outgoing"
        let etf := input.traversal_options.bind TraversalOptions.edge_types_filter
        if algorithm ≠ "bfs" then
          errOut input.query_type
            ("Traversal algorithm '" ++ algorithm ++ "' not yet implemented here.")
        else
          let fuel := (g.nodes.length + g.edges.length + 1) * (maxDepth + 2)
          let acc := starts.foldl (fun acc s =>
            if hasNode g s then
              travBfs g direction maxDepth input.node_conditions input.edge_conditions etf
                fuel [(s, 0)] [s] acc
            else acc) ⟨[], [], [], []⟩
          { initOutput input.query_type with
              nodes := some acc.collectedNodes, edges := some acc.collectedEdges }
  else if input.query_type = "shortest_path" then
    match input.start_node_ids, input.target_node_id with
    | none, _ =>
      errOut input.query_type "Missing start_node_ids or target_node_id for shortest_path query."
    | some _, none =>
      errOut input.query_type "Missing start_node_ids or target_node_id for shortest_path query."
    | some [], some _ =>
      errOut input.query_type "Missing start_node_ids or target_node_id for shortest_path query."
    | some (s :: _), some t =>
      if !hasNode g s || !hasNode g t then
        errOut input.query_type "Start or target node not found in graph."
      else
        let wname := input.getEdgeWeight.getD "weight"
        match dijkstraBidirectional g s t (edgeWeightAttr wname) with
        | some nodePath =>
          let edgesPath := edgePathFromNodePath g nodePath
          let pathNodes := nodePath.map (fun n => NodeOut.mk n (nodeAttrsD g n))
          let pathEdges := edgesPath.map (fun e => EdgeOut.mk e.key e.source e.target e.attrs)
          let cost := (pathEdges.map (fun e => edgeWeightAttr wname e.attributes)).foldl (· + ·) 0
          { initOutput input.query_type with path := some (some ⟨pathNodes, pathEdges, cost⟩) }
        | none => initOutput input.query_type
  else
    errOut input.query_type ("Unsupported query_type: " ++ input.query_type)

/-- The composition step (lines 505-542), applied verbatim. -/
def applyComposition (qt composition : String) (o : QueryOutput) : QueryOutput :=
  let o := { o with nodes := some (o.nodes.getD []), edges := some (o.edges.getD []),
                    paths := some (o.paths.getD []) }
  let o :=
    if composition = "nodes_only" then
      { o with edges := none, paths := none, path := none }
    else if composition = "nodes_and_edges" then
      let o := { o with paths := none }
      match o.path with
      | some (some p) =>
        if qt = "shortest_path" then
          { o with nodes := some p.nodes, edges := some p.edges, path := none }
        else o
      | _ => o
    else if composition = "paths" then
      let o := { o with nodes := none, edges := none }
      match o.path with
      | some (some p) =>
        if qt = "shortest_path" then { o with paths := some [p], path := none } else o
      | _ => o
    else o
  let o := if composition ≠ "nodes_and_edges" ∧ composition ≠ "paths" then
      { o with edges := none } else o
  let o := if composition ≠ "nodes_and_edges" ∧ composition ≠ "nodes_only" then
      { o with nodes := none } else o
  if composition ≠ "paths" then
    let o := { o with paths := none }
    if qt ≠ "shortest_path" then { o with path := none } else o
  else o

/-- Models `queryGraphAdvanced`. -/
def queryGraphAdvanced (g : Graph) (input : QueryInput) : QueryOutput :=
  let composition :=
    (input.result_options.bind ResultOptions.composition).getD "nodes_and_edges"
  applyComposition input.query_type composition (queryTryBody g input)

/-- The weighted example graph of C5: A→B (2), B→C (2), A→C (10). -/
def spGraph : Graph :=
  ⟨[("A", [("type", Value.str "t")]), ("B", [("type", Value.str "t")]),
    ("C", [("type", Value.str "t")])],
   [⟨"ab", "A", "B", [("type", Value.str "e"), ("weight", Value.num 2)], false⟩,
    ⟨"bc", "B", "C", [("type", Value.str "e"), ("weight", Value.num 2)], false⟩,
    ⟨"ac", "A", "C", [("type", Value.str "e"), ("weight", Value.num 10)], false⟩]⟩

/-- The same topology with no `weight` attributes anywhere. -/
def spGraphNW : Graph :=
  ⟨[("A", [("type", Value.str "t")]), ("B", [("type", Value.str "t")]),
    ("C", [("type", Value.str "t")])],
   [⟨"ab", "A", "B", [("type", Value.str "e")], false⟩,
    ⟨"bc", "B", "C", [("type", Value.str "e")], false⟩,
    ⟨"ac", "A", "C", [("type", Value.str "e")], false⟩]⟩

/-- A shortest-path query from A to C with the given composition option. -/
def spInput (comp : Option String) : QueryInput :=
  ⟨"shortest_path", some ["A"], some "C", none, none, none,
   comp.map (fun c => ⟨some c⟩), none⟩

/-- C5: the shortest-path query reads each edge's weight from the `weight`
attribute and minimises total weight — on A→B(2), B→C(2), A→C(10) it returns
the node sequence A,B,C with cost 4, not the direct edge (under the default
nodes-and-edges composition the path's nodes and edges are returned); and an
absent weight attribute counts as 1, so with no weights the one-hop direct
edge wins with cost 1. -/
theorem shortestPath_weighted_example :
    (queryGraphAdvanced spGraph (spInput (some "paths"))).paths.map
        (fun l => l.map (fun p => (p.nodes.map NodeOut.id, p.cost))) =
      some [(["A", "B", "C"], 4)] ∧
    (queryGraphAdvanced spGraph (spInput (some "paths"))).error = none ∧
    (queryGraphAdvanced spGraph (spInput none)).nodes.map
        (fun l => l.map NodeOut.id) = some ["A", "B", "C"] ∧
    (queryGraphAdvanced spGraph (spInput none)).edges.map
        (fun l => l.map EdgeOut.id) = some ["ab", "bc"] ∧
    (queryGraphAdvanced spGraph (spInput none)).error = none ∧
    (queryGraphAdvanced spGraphNW (spInput (some "paths"))).paths.map
        (fun l => l.map (fun p => (p.nodes.map NodeOut.id, p.cost))) =
      some [(["A", "C"], 1)] := by
  refine ⟨?_, ?_, ?_, ?_, ?_, ?_⟩ <;> decide

theorem error_applyComposition (qt comp : String) (o : QueryOutput) :
    (applyComposition qt comp o).error = o.error := by
  rcases hp : o.path with _ | op
  case none =>
    by_cases h1 : comp = "nodes_only" <;> by_cases h2 : comp = "nodes_and_edges" <;>
      by_cases h3 : comp = "paths" <;> by_cases h4 : qt = "shortest_path" <;>
      simp [applyComposition, hp, h1, h2, h3, h4]
  case some =>
    rcases op with _ | p <;>
      (by_cases h1 : comp = "nodes_only" <;> by_cases h2 : comp = "nodes_and_edges" <;>
        by_cases h3 : comp = "paths" <;> by_cases h4 : qt = "shortest_path" <;>
        simp [applyComposition, hp, h1, h2, h3, h4])

/-- The one-node graph used to exhibit the shortest-path missing-node error. -/
def qcGraph : Graph := ⟨[("A", [("type", Value.str "t")])], []⟩

/-- C7 counterexample: a shortest-path query whose target id does not exist
yields an error result ("Start or target node not found in graph."), not an
empty successful result — the code explicitly throws for a missing start or
target node (line 459). -/
theorem queryGraphAdvanced_counterexample :
    (queryGraphAdvanced qcGraph
      ⟨"shortest_path", some ["A"], some "B", none, none, none, none, none⟩).error =
      some "Start or target node not found in graph." ∧
    ¬(queryGraphAdvanced qcGraph
      ⟨"shortest_path", some ["A"], some "B", none, none, none, none, none⟩).error = none := by
  refine ⟨?_, ?_⟩ <;> decide

theorem foldl_hasNode_skip (g : Graph) (F : TravAcc → String → TravAcc)
    (l : List String) (acc : TravAcc) (h : ∀ s ∈ l, hasNode g s = false) :
    l.foldl (fun acc s => if hasNode g s then F acc s else acc) acc = acc := by
  induction l generalizing acc with
  | nil => rfl
  | cons s rest ih =>
    rw [List.foldl_cons, if_neg (by rw [h s (List.mem_cons_self _ _)]; simp)]
    exact ih acc (fun s hs => h s (List.mem_cons_of_mem _ hs))

/-- C7 (amended): only a structurally malformed query — unknown `query_type`,
missing `start_node_ids` or `target_node_id` — or a `shortest_path` query
whose start or target node id is absent from the graph produces an error
result; a `traversal` whose start ids are all absent yields an empty
successful result, and a `shortest_path` between two existing but
disconnected nodes yields a null path with no error.  (The shortest-path
missing-node case is the correction: the code throws
"Start or target node not found in graph." there instead of returning an
empty success.) -/
theorem queryGraphAdvanced_failure_spec (g : Graph) (input : QueryInput) :
    (input.query_type ≠ "traversal" → input.query_type ≠ "shortest_path" →
      (queryGraphAdvanced g input).error =
        some ("Unsupported query_type: " ++ input.query_type)) ∧
    (input.query_type = "traversal" →
      (input.start_node_ids = none ∨ input.start_node_ids = some []) →
      (queryGraphAdvanced g input).error =
        some "Missing start_node_ids for traversal query.") ∧
    (input.query_type = "shortest_path" →
      (input.start_node_ids = none ∨ input.start_node_ids = some [] ∨
        input.target_node_id = none) →
      (queryGraphAdvanced g input).error =
        some "Missing start_node_ids or target_node_id for shortest_path query.") ∧
    (∀ starts s t, input.query_type = "shortest_path" →
      input.start_node_ids = some (s :: starts) → input.target_node_id = some t →
      (hasNode g s = false ∨ hasNode g t = false) →
      (queryGraphAdvanced g input).error =
        some "Start or target node not found in graph.") ∧
    (∀ starts s t, input.query_type = "shortest_path" →
      input.start_node_ids = some (s :: starts) → input.target_node_id = some t →
      input.result_options = none → hasNode g s = true → hasNode g t = true →
      dijkstraBidirectional g s t
        (edgeWeightAttr (input.getEdgeWeight.getD "weight")) = none →
      (queryGraphAdvanced g input).error = none ∧
      (queryGraphAdvanced g input).path = some none ∧
      (queryGraphAdvanced g input).nodes = some [] ∧
      (queryGraphAdvanced g input).edges = some []) ∧
    (∀ starts, input.query_type = "traversal" → input.start_node_ids = some starts →
      starts ≠ [] → input.result_options = none → input.traversal_options = none →
      (∀ s ∈ starts, hasNode g s = false) →
      (queryGraphAdvanced g input).error = none ∧
      (queryGraphAdvanced g input).nodes = some [] ∧
      (queryGraphAdvanced g input).edges = some []) := by
  obtain ⟨qt, sni, tni, topt, nc, ec, ro, gw⟩ := input
  refine ⟨?_, ?_, ?_, ?_, ?_, ?_⟩
  · intro h1 h2
    simp only at h1 h2
    rw [queryGraphAdvanced]
    dsimp only
    rw [error_applyComposition, queryTryBody]
    rw [if_neg h1, if_neg h2]
    rfl
  · intro hq hs
    simp only at hq hs
    subst hq
    rw [queryGraphAdvanced]
    dsimp only
    rw [error_applyComposition]
    rcases hs with hs | hs <;> subst hs <;> simp [queryTryBody, errOut]
  · intro hq hs
    simp only at hq hs
    subst hq
    rw [queryGraphAdvanced]
    dsimp only
    rw [error_applyComposition]
    rcases hs with hs | hs | hs
    · subst hs
      simp [queryTryBody, errOut]
    · subst hs
      cases tni <;> simp [queryTryBody, errOut]
    · subst hs
      cases sni with
      | none => simp [queryTryBody, errOut]
      | some l => cases l <;> simp [queryTryBody, errOut]
  · intro starts s t hq hsni htni hmiss
    simp only at hq hsni htni
    subst hq
    subst hsni
    subst htni
    rw [queryGraphAdvanced]
    dsimp only
    rw [error_applyComposition]
    rcases hmiss with h | h <;> simp [queryTryBody, errOut, h]
  · intro starts s t hq hsni htni hro hs ht hdij
    simp only at hq hsni htni hro hdij
    subst hq
    subst hsni
    subst htni
    subst hro
    have hbody : queryTryBody g
        ⟨"shortest_path", some (s :: starts), some t, topt, nc, ec, none, gw⟩ =
        initOutput "shortest_path" := by
      simp [queryTryBody, hs, ht, hdij]
    have hqga : queryGraphAdvanced g
        ⟨"shortest_path", some (s :: starts), some t, topt, nc, ec, none, gw⟩ =
        applyComposition "shortest_path" "nodes_and_edges"
          (initOutput "shortest_path") := by
      rw [queryGraphAdvanced]
      dsimp only
      rw [hbody]
      rfl
    rw [hqga]
    refine ⟨by decide, by decide, by decide, by decide⟩
  · intro starts hq hsni hne hro htopt hmiss
    simp only at hq hsni hro htopt
    subst hq
    subst hsni
    subst hro
    subst htopt
    have hie : starts.isEmpty = false := by
      rcases starts with _ | ⟨a, l⟩
      · exact absurd rfl hne
      · rfl
    have hbody : queryTryBody g
        ⟨"traversal", some starts, tni, none, nc, ec, none, gw⟩ =
        { initOutput "traversal" with nodes := some [], edges := some [] } := by
      rw [queryTryBody]
      rw [if_pos rfl]
      dsimp only
      rw [hie]
      simp only [Bool.false_eq_true, if_false]
      rw [if_neg (by simp)]
      rw [foldl_hasNode_skip g _ starts _ hmiss]
    have hqga : queryGraphAdvanced g
        ⟨"traversal", some starts, tni, none, nc, ec, none, gw⟩ =
        applyComposition "traversal" "nodes_and_edges"
          { initOutput "traversal" with nodes := some [], edges := some [] } := by
      rw [queryGraphAdvanced]
      dsimp only
      rw [hbody]
      rfl
    rw [hqga]
    refine ⟨by decide, by decide, by decide⟩

/-- Two isolated nodes, for the unreachable-target witness. -/
def qc2Graph : Graph :=
  ⟨[("A", [("type", Value.str "t")]), ("B", [("type", Value.str "t")])], []⟩

/-- Witness for C7: the amended failure contract evaluated concretely — a
shortest-path query between two existing but disconnected nodes is an empty
success (null path, no error), while a missing target id yields the
descriptive error. -/
theorem queryGraphAdvanced_failure_spec_witness :
    ((queryGraphAdvanced qc2Graph
        ⟨"shortest_path", some ["A"], some "B", none, none, none, none, none⟩).error = none ∧
      (queryGraphAdvanced qc2Graph
        ⟨"shortest_path", some ["A"], some "B", none, none, none, none, none⟩).path =
        some none ∧
      (queryGraphAdvanced qc2Graph
        ⟨"shortest_path", some ["A"], some "B", none, none, none, none, none⟩).nodes =
        some [] ∧
      (queryGraphAdvanced qc2Graph
        ⟨"shortest_path", some ["A"], some "B", none, none, none, none, none⟩).edges =
        some []) ∧
    (queryGraphAdvanced qc2Graph
      ⟨"shortest_path", some ["A"], some "Z", none, none, none, none, none⟩).error =
      some "Start or target node not found in graph." :=
  ⟨(queryGraphAdvanced_failure_spec qc2Graph
      ⟨"shortest_path", some ["A"], some "B", none, none, none, none, none⟩).2.2.2.2.1
    [] "A" "B" rfl rfl rfl rfl (by decide) (by decide) (by decide),
   (queryGraphAdvanced_failure_spec qc2Graph
      ⟨"shortest_path", some ["A"], some "Z", none, none, none, none, none⟩).2.2.2.1
    [] "A" "Z" rfl rfl rfl (Or.inr (by decide))⟩

/-- Filter argument of GraphologyManager.readGraph
(graphologyManager.ts lines 194-219): optional lists of node ids and types,
and an optional record of attribute key/value pairs that must all match
exactly (JS `===`). -/
structure ReadFilter where
  types : Option (List String)
  attributes : Option (List (String × Value))
  nodeIds : Option (List String)
deriving Repr, DecidableEq

/-- The node-id list readGraph computes before building its output: all node
ids, narrowed by the nodeIds filter, then the types filter (the node's `type`
attribute must be one of the given strings), then the attributes filter
(every given key/value pair present verbatim). -/
def readFilterNodes (g : Graph) (filter : Option ReadFilter) : List String :=
  let ns := g.nodes.map Prod.fst
  let ns := match filter.bind ReadFilter.nodeIds with
    | none => ns
    | some ids => ns.filter (fun n => ids.contains n)
  let ns := match filter.bind ReadFilter.types with
    | none => ns
    | some ts => ns.filter (fun n =>
        match getAttr (nodeAttrsD g n) "type" with
        | some (Value.str t) => ts.contains t
        | _ => false)
  match filter.bind ReadFilter.attributes with
  | none => ns
  | some kvs => ns.filter (fun n =>
      kvs.all (fun kv => getAttr (nodeAttrsD g n) kv.1 == some kv.2))

/-- Result shape of readGraph: nodes with attributes, and the edges of the
induced subgraph as (key, source, target, attributes). -/
structure ReadOut where
  nodes : List (String × AttrMap)
  edges : List (String × String × String × AttrMap)
deriving Repr, DecidableEq

/-- GraphologyManager.readGraph (graphologyManager.ts lines 194-244): filter
the node ids, then — only when some node survived — keep every edge whose
two extremities are both among the surviving nodes, and format both lists
with their attribute maps. -/
def readGraph (g : Graph) (filter : Option ReadFilter) : ReadOut :=
  let ns := readFilterNodes g filter
  let es := if ns.length > 0 then
      g.edges.filter (fun e => ns.contains e.source && ns.contains e.target)
    else []
  ⟨ns.map (fun n => (n, nodeAttrsD g n)),
   es.map (fun e => (e.key, e.source, e.target, e.attrs))⟩

/-- State-passing form of readGraph: the TS method reads `this.graph` and
never reassigns or mutates it, so the embedded operation returns the state
it was given alongside its result. -/
def readGraphOp (g : Graph) (filter : Option ReadFilter) : Graph × ReadOut :=
  (g, readGraph g filter)

/-- State-passing form of KnowledgeGraphManager.searchNodes
(server.ts lines 423-439): a pure filter over the graph, state untouched. -/
def searchNodesOp (g : Graph) (q : String) : Graph × List (String × AttrMap) :=
  (g, searchNodes g q)

/-- State-passing form of GraphHandler.getNeighborhood
(GraphHandler.ts lines 265-327): the BFS only reads the graph. -/
def getNeighborhoodOp (g : Graph) (startNodeId : String) (maxDepth : Nat)
    (dir : String) : Graph × Option (List AttrMap × List AttrMap) :=
  (g, getNeighborhood g startNodeId maxDepth dir)

/-- State-passing form of GraphologyManager.queryGraphAdvanced
(graphologyManager.ts lines 366-545): traversal, shortest path and
composition all read the graph without mutating it. -/
def queryGraphAdvancedOp (g : Graph) (input : QueryInput) : Graph × QueryOutput :=
  (g, queryGraphAdvanced g input)

/-- C10: every read operation — readGraph with any filter, searchNodes,
getNeighborhood, and queryGraphAdvanced with any query — returns the graph
state it was given: node list, edge list and all attribute maps are
unchanged. -/
theorem read_ops_frame (g : Graph) :
    (∀ filter, (readGraphOp g filter).1 = g) ∧
    (∀ q, (searchNodesOp g q).1 = g) ∧
    (∀ startNodeId maxDepth dir, (getNeighborhoodOp g startNodeId maxDepth dir).1 = g) ∧
    (∀ input, (queryGraphAdvancedOp g input).1 = g) :=
  ⟨fun _ => rfl, fun _ => rfl, fun _ _ _ => rfl, fun _ => rfl⟩
